import Mathlib

/-!
# Sequential RANSAC extraction engine of `ObjectDetection.cpp`

A shallow embedding of `main` in `src/ObjectDetection.cpp`: the argument check and the
reading loop with its pre-filter (lines 21-57), the dispatch on the kind (lines 58-73),
the cylinder branch (lines 73-122) and the sphere branch (lines 123-159), together with
the properties of the index bookkeeping, the colouring and the termination of the
sequential loop.

Modelling conventions.

* `std::vector<T>` is `List T`; `push_back` appends at the end; `v.at(i)` is a lookup
  that raises `Fault.outOfRange` when `i` is not below the size; `v[i]` is a lookup
  whose out-of-range case is undefined behaviour in C++ and is the fault
  `Fault.undefinedAccess` here.
* The scalar type `float` is a type parameter `F`: the engine only copies coordinates.
  The arithmetic of the pre-filter is the parameter `Arith`, so that every statement
  holds for each interpretation of the floating-point operations.
* The estimators `EstimateCylinderRANSAC` / `EstimateSphereRANSAC` and the classifiers
  `CylinderPointRANSACDifferences` / `SpherePointRANSACDifferences` live in headers that
  are not part of the sources at hand; they are parameters of the embedding.  The
  constant arguments `THERSHOLD` and `RANSAC_ITER` are absorbed into these parameters.
  An estimator returns `none` when the call does not return normally (it throws); the
  cylinder estimator also receives the number of the call, because RANSAC draws random
  samples and two calls on the same points need not agree.
* `int` counters and indices are `Nat`: they start at `0`, only grow by one, and are
  bounded by the number of rows of the input, which the program itself keeps in an `int`.
-/

namespace ObjectDetection

/-- The value type `cv::Point3f`: three coordinates of scalar type `F`. -/
structure Point3f (F : Type) where
  x : F
  y : F
  z : F
deriving DecidableEq, Repr

/-- The value type `cv::Point3i`, used by the program for RGB colours. -/
structure Point3i where
  x : Int
  y : Int
  z : Int
deriving DecidableEq, Repr

/-- The parameter vector `array<float, 4>` returned by an estimator;
`p0 .. p3` are the entries `params[0] .. params[3]`. -/
structure Params (F : Type) where
  p0 : F
  p1 : F
  p2 : F
  p3 : F
deriving DecidableEq, Repr

/-- The part of `RANSACDiffs` that `main` reads: the vector `isInliers`. -/
structure RANSACDiffs where
  isInliers : List Bool
deriving DecidableEq, Repr

/-- The ways in which a branch of `main` can fail to reach `WritePLY`. -/
inductive Fault where
  | outOfRange
  | undefinedAccess
  | estimatorFailed
deriving DecidableEq, Repr

/-- The initial colour `Point3i(255, 0, 0)` (line 87, lines 145-147). -/
def red : Point3i := ⟨255, 0, 0⟩

/-- The inlier colour of the sphere branch (lines 140-142). -/
def green : Point3i := ⟨0, 255, 0⟩

/-- The colour of the sphere marker, `Point3i(0, 0, 255)` (line 154). -/
def blue : Point3i := ⟨0, 0, 255⟩

/-- The vector `cylinder_Colors` (lines 88-93): purple, pink, yellow, blue. -/
def cylinder_Colors : List Point3i :=
  [⟨160, 32, 240⟩, ⟨255, 192, 203⟩, ⟨255, 255, 0⟩, ⟨0, 0, 255⟩]

/-- The variables the `for` loop of lines 104-112 writes. -/
structure ForState (F : Type) where
  RANSAC_Colors : List Point3i
  nextRemainingPoints : List (Point3f F)
  nextOriginalIndices : List Nat
deriving DecidableEq, Repr

/-- The variables of the `while` loop of lines 95-118. -/
structure CylState (F : Type) where
  cylinderCount : Nat
  remainingPoints : List (Point3f F)
  originalIndices : List Nat
  RANSAC_Colors : List Point3i
deriving DecidableEq, Repr

/-- The two vectors handed to `WritePLY` (lines 121 and 157). -/
structure PlyArgs (F : Type) where
  points : List (Point3f F)
  colors : List Point3i
deriving DecidableEq, Repr

/-- The type of a cylinder estimator: call number, points, result (`none`: no normal return). -/
abbrev CylEstimator (F : Type) := Nat → List (Point3f F) → Option (Params F)

/-- The type of a sphere estimator: points, result (`none`: no normal return). -/
abbrev SphEstimator (F : Type) := List (Point3f F) → Option (Params F)

/-- The type of a classifier: points and parameters to a `RANSACDiffs`. -/
abbrev Classifier (F : Type) := List (Point3f F) → Params F → RANSACDiffs

variable {F : Type}

/-- The body of the `for` loop, lines 105-111, at index `i`. -/
def forBody (remainingPoints : List (Point3f F)) (originalIndices : List Nat)
    (differences : RANSACDiffs) (cylinderCount : Nat)
    (st : ForState F) (i : Nat) : Except Fault (ForState F) :=
  match differences.isInliers[i]? with
  | none => .error .outOfRange
  | some true =>
    match originalIndices[i]?, cylinder_Colors[cylinderCount]? with
    | some j, some c =>
      if j < st.RANSAC_Colors.length then
        .ok { st with RANSAC_Colors := st.RANSAC_Colors.set j c }
      else .error .undefinedAccess
    | _, _ => .error .undefinedAccess
  | some false =>
    match remainingPoints[i]?, originalIndices[i]? with
    | some p, some j =>
      .ok { st with nextRemainingPoints := st.nextRemainingPoints ++ [p],
                    nextOriginalIndices := st.nextOriginalIndices ++ [j] }
    | _, _ => .error .undefinedAccess

/-- The `for` loop of lines 104-112 run for `i = 0, ..., n - 1`. -/
def forLoop (remainingPoints : List (Point3f F)) (originalIndices : List Nat)
    (differences : RANSACDiffs) (cylinderCount : Nat)
    (colors : List Point3i) (n : Nat) : Except Fault (ForState F) :=
  (List.range n).foldlM (forBody remainingPoints originalIndices differences cylinderCount)
    ⟨colors, [], []⟩

/-- The condition of the `while` loop, line 95. -/
def loopCond (s : CylState F) : Bool :=
  decide (s.cylinderCount < 4) && !s.remainingPoints.isEmpty

/-- One round: the body of the `while` loop, lines 96-117. -/
def loopBody (est : CylEstimator F) (cls : Classifier F) (s : CylState F) :
    Except Fault (CylState F) :=
  match est s.cylinderCount s.remainingPoints with
  | none => .error .estimatorFailed
  | some params =>
    let differences := cls s.remainingPoints params
    match forLoop s.remainingPoints s.originalIndices differences s.cylinderCount
        s.RANSAC_Colors s.remainingPoints.length with
    | .error e => .error e
    | .ok st =>
      .ok ⟨s.cylinderCount + 1, st.nextRemainingPoints, st.nextOriginalIndices,
           st.RANSAC_Colors⟩

/-- The `while` loop of lines 95-118.  Every round increments `cylinderCount`, so
`4 - cylinderCount` decreases. -/
def whileLoop (est : CylEstimator F) (cls : Classifier F) (s : CylState F) :
    Except Fault (CylState F) :=
  if hc : loopCond s = true then
    match hb : loopBody est cls s with
    | .error e => .error e
    | .ok s' => whileLoop est cls s'
  else .ok s
termination_by 4 - s.cylinderCount
decreasing_by
  have h4 : s.cylinderCount < 4 := by
    simp only [loopCond, Bool.and_eq_true, decide_eq_true_eq] at hc
    exact hc.1
  have hs : s'.cylinderCount = s.cylinderCount + 1 := by
    unfold loopBody at hb
    split at hb
    · cases hb
    · dsimp only at hb
      split at hb
      · cases hb
      · cases hb
        rfl
  omega

/-- The state before the first round, lines 81-87. -/
def initState (points : List (Point3f F)) : CylState F :=
  ⟨0, points, List.range points.length, List.replicate points.length red⟩

/-- The cylinder branch, lines 81-121: the value is what `WritePLY` receives. -/
def cylinderBranch (est : CylEstimator F) (cls : Classifier F) (points : List (Point3f F)) :
    Except Fault (PlyArgs F) :=
  match whileLoop est cls (initState points) with
  | .error e => .error e
  | .ok s => .ok ⟨points, s.RANSAC_Colors⟩

/-- The state at the `k`-th round boundary of the `while` loop started in `s0`: `some s`
when the loop reaches its test for the `k`-th time after `k` completed rounds, `none`
when it has left the loop (normally or by a fault) before. -/
def stateAt (est : CylEstimator F) (cls : Classifier F) (s0 : CylState F) :
    Nat → Option (CylState F)
  | 0 => some s0
  | k + 1 =>
    match stateAt est cls s0 k with
    | none => none
    | some s =>
      if loopCond s = true then
        match loopBody est cls s with
        | .error _ => none
        | .ok s' => some s'
      else none

/-- The body of the colouring loop of the sphere branch, lines 137-149, at index `i`. -/
def sphereBody (differences : RANSACDiffs) (colors : List Point3i) (i : Nat) :
    Except Fault (List Point3i) :=
  match differences.isInliers[i]? with
  | none => .error .outOfRange
  | some true => .ok (colors ++ [green])
  | some false => .ok (colors ++ [red])

/-- The sphere branch, lines 126-157: the value is what `WritePLY` receives. -/
def sphereBranch (est : SphEstimator F) (cls : Classifier F) (points : List (Point3f F)) :
    Except Fault (PlyArgs F) :=
  match est points with
  | none => .error .estimatorFailed
  | some params =>
    let differences := cls points params
    let num := points.length
    match (List.range num).foldlM (sphereBody differences) [] with
    | .error e => .error e
    | .ok colors =>
      .ok ⟨points ++ [⟨params.p0, params.p1, params.p2⟩], colors ++ [blue]⟩

/-! ## The entry point -/

/-- The floating-point operations `main` applies to the input rows (lines 38-50), as
parameters: `D` stands for `double` and `Fl` for `float`.  `toFloat` is the conversion of
a `double` stored into a `float` variable, `toDouble` the promotion of a `float` that is
compared with a `double`, `gt` and `le` the comparisons `>` and `<=` on `double`, and
`FILTER_LOWEST_DISTANCE` the `double` constant the macro of line 12 expands to.  The only
law assumed, `le_not_gt`, holds for IEEE comparisons, NaN included. -/
structure Arith (D Fl : Type) where
  mul : D → D → D
  add : D → D → D
  sqrt : D → D
  toFloat : D → Fl
  toDouble : Fl → D
  gt : D → D → Bool
  le : D → D → Bool
  FILTER_LOWEST_DISTANCE : D
  le_not_gt : ∀ a b, le a b = true → gt a b = false

/-- Modelled from the spec: the members of `MatrixReaderWriter` that `main` reads; the
class is declared in `MatrixReaderWriter.h`, which is not among the sources.  The input is
a table of numeric rows; `data` holds it row after row. -/
structure MatrixReaderWriter (D : Type) where
  rowNum : Int
  columnNum : Int
  data : List D

/-- Modelled from the spec: the macro `EXIT_FAILURE` of the C library, a non-zero exit
status (its usual value is `1`). -/
def EXIT_FAILURE : Int := 1

/-- How a run of `main` ends: `exit` with a status, the call of `WritePLY` with the output
path and the two vectors, or a fault before `WritePLY` is reached. -/
inductive Outcome (F : Type) where
  | exited (status : Int)
  | written (path : String) (args : PlyArgs F)
  | fault (f : Fault)
deriving DecidableEq, Repr

variable {D Fl : Type}

/-- The value stored in `distFromOrigo` (line 42), promoted for the comparison of line 46. -/
def distFromOrigo (A : Arith D Fl) (x y z : D) : D :=
  A.toDouble (A.toFloat (A.sqrt (A.add (A.add (A.mul x x) (A.mul y y)) (A.mul z z))))

/-- The body of the reading loop, lines 38-52, at row `idx`. -/
def readBody (A : Arith D Fl) (data : List D) (points : List (Point3f Fl)) (idx : Nat) :
    Except Fault (List (Point3f Fl)) :=
  match data[3 * idx]?, data[3 * idx + 1]?, data[3 * idx + 2]? with
  | some x, some y, some z =>
    if A.gt (distFromOrigo A x y z) A.FILTER_LOWEST_DISTANCE = true then
      .ok (points ++ [⟨A.toFloat x, A.toFloat y, A.toFloat z⟩])
    else .ok points
  | _, _, _ => .error .undefinedAccess

/-- The reading loop with its pre-filter, lines 35-54. -/
def readPoints (A : Arith D Fl) (mrw : MatrixReaderWriter D) :
    Except Fault (List (Point3f Fl)) :=
  (List.range mrw.rowNum.toNat).foldlM (readBody A mrw.data) []

/-- The function `main`, lines 19-160.  `argv` is the argument vector (its length is
`argc`), `load` the constructor `MatrixReaderWriter mrw(argv[1])`. -/
def main (A : Arith D Fl) (load : String → MatrixReaderWriter D)
    (cylEst : CylEstimator Fl) (cylCls : Classifier Fl)
    (sphEst : SphEstimator Fl) (sphCls : Classifier Fl) (argv : List String) : Outcome Fl :=
  if argv.length ≠ 4 then .exited EXIT_FAILURE
  else
    let mrw := load (argv.getD 1 "")
    match readPoints A mrw with
    | .error e => .fault e
    | .ok points =>
      let objType := argv.getD 3 ""
      let fitCylinder : Option Bool :=
        if objType = "cylinder" then some true
        else if objType = "sphere" then some false
        else none
      match fitCylinder with
      | none => .exited EXIT_FAILURE
      | some true =>
        match cylinderBranch cylEst cylCls points with
        | .error e => .fault e
        | .ok out => .written (argv.getD 2 "") out
      | some false =>
        match sphereBranch sphEst sphCls points with
        | .error e => .fault e
        | .ok out => .written (argv.getD 2 "") out

/-! ## Auxiliary functions used to state the properties -/

/-- The contents of `data` for a table with the rows `rows`, three columns each. -/
def tableData : List (D × D × D) → List D
  | [] => []
  | r :: rows => r.1 :: r.2.1 :: r.2.2 :: tableData rows

/-- The loaded matrix of a three-column table with the rows `rows`. -/
def tableOf (rows : List (D × D × D)) : MatrixReaderWriter D :=
  ⟨rows.length, 3, tableData rows⟩

/-- Whether the pre-filter keeps the row `r`: the test of line 46. -/
def keeps (A : Arith D Fl) (r : D × D × D) : Bool :=
  A.gt (distFromOrigo A r.1 r.2.1 r.2.2) A.FILTER_LOWEST_DISTANCE

/-- The point stored for the row `r`, lines 47-51. -/
def toPoint (A : Arith D Fl) (r : D × D × D) : Point3f Fl :=
  ⟨A.toFloat r.1, A.toFloat r.2.1, A.toFloat r.2.2⟩

/-- The filtered cloud of a table: the kept rows, in order, as points. -/
def filteredCloud (A : Arith D Fl) (rows : List (D × D × D)) : List (Point3f Fl) :=
  (rows.filter (keeps A)).map (toPoint A)


/-- The entries of `xs` whose flag is `true`, in order. -/
def inliersOf {α : Type} (xs : List α) (flags : List Bool) : List α :=
  ((xs.zip flags).filter (fun p => p.2)).map Prod.fst

/-- The entries of `xs` whose flag is `false`, in order. -/
def outliersOf {α : Type} (xs : List α) (flags : List Bool) : List α :=
  ((xs.zip flags).filter (fun p => !p.2)).map Prod.fst

/-- The colour vector after writing `c` at the slots `js`, one after the other. -/
def paint (colors : List Point3i) (js : List Nat) (c : Point3i) : List Point3i :=
  js.foldl (fun cs j => cs.set j c) colors

/-- The bookkeeping invariant of the `while` loop, relative to the full cloud `points`. -/
structure LoopInv (points : List (Point3f F)) (s : CylState F) : Prop where
  count_le : s.cylinderCount ≤ 4
  fidelity : s.originalIndices.map (fun j => points[j]?) = s.remainingPoints.map some
  increasing : s.originalIndices.Pairwise (fun a b => a < b)
  colors_length : s.RANSAC_Colors.length = points.length
  coloring : ∀ j, j < points.length →
    (j ∈ s.originalIndices ∧ s.RANSAC_Colors[j]? = some red) ∨
    (j ∉ s.originalIndices ∧
      ∃ k c, k < s.cylinderCount ∧ cylinder_Colors[k]? = some c ∧ s.RANSAC_Colors[j]? = some c)

/-- The state a round produces from `s` when the classifier answers `flags` and the
palette colour of the round is `c`. -/
def nextState (s : CylState F) (flags : List Bool) (c : Point3i) : CylState F :=
  ⟨s.cylinderCount + 1, outliersOf s.remainingPoints flags, outliersOf s.originalIndices flags,
   paint s.RANSAC_Colors (inliersOf s.originalIndices flags) c⟩

/-- Whether round `k` of the run on `points` is executed and original index `j` is then
still in the working set at a position the classifier flags as an inlier. -/
def flaggedAt (est : CylEstimator F) (cls : Classifier F) (points : List (Point3f F))
    (k j : Nat) : Bool :=
  match stateAt est cls (initState points) k with
  | none => false
  | some s =>
    loopCond s &&
      match est s.cylinderCount s.remainingPoints with
      | none => false
      | some prm => decide (j ∈ inliersOf s.originalIndices (cls s.remainingPoints prm).isInliers)

/-! ## A small run used to exercise the statements -/

/-- A cloud of three points with integer coordinates. -/
def samplePoints : List (Point3f Int) := [⟨1, 0, 0⟩, ⟨0, 1, 0⟩, ⟨5, 5, 5⟩]

/-- An estimator whose `k`-th call returns the vector `(k, 0, 0, 1)`. -/
def sampleEst : CylEstimator Int := fun k _ => some ⟨k, 0, 0, 1⟩

/-- A classifier that flags the points whose `x` equals `params[0]`. -/
def sampleCls : Classifier Int := fun pts prm => ⟨pts.map (fun q => decide (q.x = prm.p0))⟩

/-- An estimator that returns on its first call and fails on every later call. -/
def failingEst : CylEstimator Int := fun k _ => if k = 0 then some ⟨0, 0, 0, 1⟩ else none

/-- An estimator that always returns a vector whose radius entry `params[3]` is `-1`. -/
def degenerateEst : CylEstimator Int := fun _ _ => some ⟨0, 0, 0, -1⟩

/-- A sphere estimator that returns the centre `(7, 8, 9)` and radius `1`. -/
def sampleSphereEst : SphEstimator Int := fun _ => some ⟨7, 8, 9, 1⟩

/-- The largest `k` with `k * k ≤ n`, found by search. -/
def isqrt (n : Nat) : Nat :=
  (List.range (n + 1)).foldl (fun r k => if k * k ≤ n then k else r) 0

/-- Exact integer arithmetic with the rounded-down square root; both scalar types are
`Int` and the threshold is `0` (an integer exceeds `0.3` exactly when it exceeds `0`). -/
def sampleArith : Arith Int Int where
  mul := fun a b => a * b
  add := fun a b => a + b
  sqrt := fun a => (isqrt a.toNat : Int)
  toFloat := fun a => a
  toDouble := fun a => a
  gt := fun a b => decide (a > b)
  le := fun a b => decide (a ≤ b)
  FILTER_LOWEST_DISTANCE := 0
  le_not_gt := by
    intro a b h
    simp only [decide_eq_true_eq] at h
    simp only [decide_eq_false_iff_not]
    omega

/-- A table of four rows; the second row is the origin. -/
def sampleRows : List (Int × Int × Int) := [(1, 0, 0), (0, 0, 0), (0, 1, 0), (5, 5, 5)]

/-- A loader that finds the sample table under every path. -/
def sampleLoad : String → MatrixReaderWriter Int := fun _ => tableOf sampleRows

/-- A table whose only row is the origin, which the pre-filter drops. -/
def originRows : List (Int × Int × Int) := [(0, 0, 0)]

/-- A loader that finds the origin-only table under every path. -/
def originLoad : String → MatrixReaderWriter Int := fun _ => tableOf originRows

/-- A sphere estimator that never returns. -/
def failingSphereEst : SphEstimator Int := fun _ => none

/-! ## The `for` loop -/

theorem paint_append (colors : List Point3i) (js : List Nat) (j : Nat) (c : Point3i) :
    paint colors (js ++ [j]) c = (paint colors js c).set j c := by
  simp [paint, List.foldl_append]

theorem paint_length (colors : List Point3i) (js : List Nat) (c : Point3i) :
    (paint colors js c).length = colors.length := by
  induction js generalizing colors with
  | nil => rfl
  | cons a js ih =>
    have h := ih (colors.set a c)
    simpa [paint] using h

theorem getElem?_paint (colors : List Point3i) (js : List Nat) (c : Point3i) (j : Nat) :
    (paint colors js c)[j]? = if j ∈ js then (colors[j]?).map (fun _ => c) else colors[j]? := by
  induction js generalizing colors with
  | nil => simp [paint]
  | cons a js ih =>
    have h := ih (colors.set a c)
    have hp : paint colors (a :: js) c = paint (colors.set a c) js c := rfl
    rw [hp, h]
    by_cases hja : j = a
    · subst hja
      by_cases hjl : j < colors.length
      · simp [List.getElem?_set, hjl]
      · have hn : colors[j]? = none := List.getElem?_eq_none (Nat.le_of_not_lt hjl)
        simp [List.getElem?_set, hjl, hn]
    · have hne : ¬ a = j := fun h => hja h.symm
      simp [List.getElem?_set, hja, hne]

theorem zip_take_succ {α β : Type} (xs : List α) (ys : List β) (n : Nat)
    (hx : n < xs.length) (hy : n < ys.length) :
    (xs.take (n + 1)).zip (ys.take (n + 1))
      = (xs.take n).zip (ys.take n) ++ [(xs[n], ys[n])] := by
  rw [List.take_succ, List.take_succ, List.getElem?_eq_getElem hx, List.getElem?_eq_getElem hy]
  simp only [Option.toList]
  rw [List.zip_append]
  · rfl
  · simp [List.length_take, Nat.min_eq_left (Nat.le_of_lt hx), Nat.min_eq_left (Nat.le_of_lt hy)]

theorem inliersOf_take_succ {α : Type} (xs : List α) (flags : List Bool) (n : Nat)
    (hx : n < xs.length) (hy : n < flags.length) :
    inliersOf (xs.take (n + 1)) (flags.take (n + 1))
      = inliersOf (xs.take n) (flags.take n) ++ (if flags[n] = true then [xs[n]] else []) := by
  unfold inliersOf
  rw [zip_take_succ xs flags n hx hy]
  by_cases h : flags[n] = true <;> simp [List.filter_append, h]

theorem outliersOf_take_succ {α : Type} (xs : List α) (flags : List Bool) (n : Nat)
    (hx : n < xs.length) (hy : n < flags.length) :
    outliersOf (xs.take (n + 1)) (flags.take (n + 1))
      = outliersOf (xs.take n) (flags.take n) ++ (if flags[n] = true then [] else [xs[n]]) := by
  unfold outliersOf
  rw [zip_take_succ xs flags n hx hy]
  by_cases h : flags[n] = true <;> simp [List.filter_append, h]

/-- The `for` loop after `n` iterations: the flagged slots are painted, the others are
carried over, in order. -/
theorem forLoop_eq (pts : List (Point3f F)) (idx : List Nat) (d : RANSACDiffs)
    (k : Nat) (c : Point3i) (colors : List Point3i) (n : Nat)
    (hp : n ≤ pts.length) (hi : n ≤ idx.length) (hf : n ≤ d.isInliers.length)
    (hc : cylinder_Colors[k]? = some c) (hb : ∀ j ∈ idx, j < colors.length) :
    forLoop pts idx d k colors n
      = .ok ⟨paint colors (inliersOf (idx.take n) (d.isInliers.take n)) c,
             outliersOf (pts.take n) (d.isInliers.take n),
             outliersOf (idx.take n) (d.isInliers.take n)⟩ := by
  induction n with
  | zero => simp [forLoop, paint, inliersOf, outliersOf, pure, Except.pure]
  | succ n ih =>
    have hp' : n < pts.length := hp
    have hi' : n < idx.length := hi
    have hf' : n < d.isInliers.length := hf
    have ih' := ih (Nat.le_of_lt hp') (Nat.le_of_lt hi') (Nat.le_of_lt hf')
    unfold forLoop at ih' ⊢
    rw [List.range_succ, List.foldlM_append, ih']
    rw [inliersOf_take_succ idx d.isInliers n hi' hf',
      outliersOf_take_succ pts d.isInliers n hp' hf',
      outliersOf_take_succ idx d.isInliers n hi' hf']
    have hjb : idx[n] < colors.length := hb _ (List.getElem_mem hi')
    by_cases hfl : d.isInliers[n] = true
    · simp [forBody, bind, Except.bind, pure, Except.pure, List.getElem?_eq_getElem hf',
        List.getElem?_eq_getElem hi', hfl, hc, paint_length, hjb, paint_append]
    · have hfl' : d.isInliers[n] = false := by simpa using hfl
      simp [forBody, bind, Except.bind, pure, Except.pure, List.getElem?_eq_getElem hf',
        List.getElem?_eq_getElem hi', List.getElem?_eq_getElem hp', hfl', hc]

/-! ## Flag-driven selection -/

theorem inliersOf_outliersOf_perm {α : Type} (xs : List α) (flags : List Bool)
    (h : xs.length ≤ flags.length) :
    (inliersOf xs flags ++ outliersOf xs flags).Perm xs := by
  have h1 := List.filter_append_perm (fun p : α × Bool => p.2) (xs.zip flags)
  have h2 := h1.map Prod.fst
  rw [List.map_append, List.map_fst_zip _ _ h] at h2
  unfold inliersOf outliersOf
  exact h2

theorem outliersOf_sublist {α : Type} (xs : List α) (flags : List Bool)
    (h : xs.length ≤ flags.length) : (outliersOf xs flags).Sublist xs := by
  have h1 : ((xs.zip flags).filter (fun p => !p.2)).Sublist (xs.zip flags) := List.filter_sublist _
  have h2 := h1.map Prod.fst
  rwa [List.map_fst_zip _ _ h] at h2

theorem inliersOf_sublist {α : Type} (xs : List α) (flags : List Bool)
    (h : xs.length ≤ flags.length) : (inliersOf xs flags).Sublist xs := by
  have h1 : ((xs.zip flags).filter (fun p => p.2)).Sublist (xs.zip flags) := List.filter_sublist _
  have h2 := h1.map Prod.fst
  rwa [List.map_fst_zip _ _ h] at h2

theorem outliersOf_map {α β : Type} (f : α → β) (xs : List α) (flags : List Bool) :
    outliersOf (xs.map f) flags = (outliersOf xs flags).map f := by
  induction xs generalizing flags with
  | nil => simp [outliersOf]
  | cons a xs ih =>
    cases flags with
    | nil => simp [outliersOf]
    | cons b fl =>
      have h := ih fl
      unfold outliersOf at h ⊢
      cases b <;> simp [List.filter_cons, h]

theorem length_inliersOf {α : Type} (xs : List α) (flags : List Bool)
    (h : xs.length = flags.length) : (inliersOf xs flags).length = flags.count true := by
  induction xs generalizing flags with
  | nil =>
    cases flags with
    | nil => simp [inliersOf]
    | cons b fl => simp at h
  | cons a xs ih =>
    cases flags with
    | nil => simp at h
    | cons b fl =>
      have h' : xs.length = fl.length := by simpa using h
      have h2 := ih fl h'
      unfold inliersOf at h2 ⊢
      cases b <;> simp [List.filter_cons, h2]

theorem mem_inliersOf_iff {α : Type} (xs : List α) (flags : List Bool) (a : α) :
    a ∈ inliersOf xs flags ↔ ∃ i : Nat, xs[i]? = some a ∧ flags[i]? = some true := by
  induction xs generalizing flags with
  | nil => simp [inliersOf]
  | cons x xs ih =>
    cases flags with
    | nil => simp [inliersOf]
    | cons b fl =>
      have h := ih fl
      have hcons : inliersOf (x :: xs) (b :: fl)
          = (if b = true then [x] else []) ++ inliersOf xs fl := by
        unfold inliersOf
        cases b <;> simp [List.filter_cons]
      rw [hcons, List.mem_append, h]
      constructor
      · rintro (h1 | ⟨i, h1, h2⟩)
        · refine ⟨0, ?_⟩
          cases b <;> simp at h1 ⊢
          exact h1.symm
        · exact ⟨i + 1, by simpa using h1, by simpa using h2⟩
      · rintro ⟨i, h1, h2⟩
        cases i with
        | zero =>
          left
          simp at h1 h2
          simp [h1, h2]
        | succ i =>
          right
          exact ⟨i, by simpa using h1, by simpa using h2⟩

/-! ## The palette -/

theorem palette_get (k : Nat) (h : k < 4) :
    ∃ c, cylinder_Colors[k]? = some c ∧ c ≠ red := by
  interval_cases k <;> simp [cylinder_Colors, red]

theorem palette_lt (k : Nat) (c : Point3i) (h : cylinder_Colors[k]? = some c) : k < 4 := by
  by_contra hk
  have hn : cylinder_Colors[k]? = none :=
    List.getElem?_eq_none (by simp [cylinder_Colors]; omega)
  rw [hn] at h
  cases h

theorem palette_ne_red (k : Nat) (c : Point3i) (h : cylinder_Colors[k]? = some c) :
    c ≠ red := by
  obtain ⟨c', h1, h2⟩ := palette_get k (palette_lt k c h)
  rw [h] at h1
  cases h1
  exact h2

theorem palette_injective (k k' : Nat) (c : Point3i) (h : cylinder_Colors[k]? = some c)
    (h' : cylinder_Colors[k']? = some c) : k = k' := by
  have hk := palette_lt k c h
  have hk' := palette_lt k' c h'
  have heq : cylinder_Colors[k]? = cylinder_Colors[k']? := h.trans h'.symm
  clear h h'
  revert heq
  interval_cases k <;> interval_cases k' <;> decide

/-! ## One round of the `while` loop -/

theorem LoopInv.length_eq {points : List (Point3f F)} {s : CylState F}
    (hinv : LoopInv points s) : s.originalIndices.length = s.remainingPoints.length := by
  have h := congrArg List.length hinv.fidelity
  simpa using h

theorem LoopInv.getElem?_points {points : List (Point3f F)} {s : CylState F}
    (hinv : LoopInv points s) (i j : Nat) (h : s.originalIndices[i]? = some j) :
    points[j]? = s.remainingPoints[i]? ∧ ∃ p, s.remainingPoints[i]? = some p := by
  have h1 := congrArg (fun l => l[i]?) hinv.fidelity
  simp only [List.getElem?_map, h, Option.map_some'] at h1
  have hi : i < s.remainingPoints.length := by
    have := (List.getElem?_eq_some_iff.1 h).1
    rw [← hinv.length_eq]
    exact this
  rw [List.getElem?_eq_getElem hi] at h1 ⊢
  simp only [Option.map_some'] at h1
  have h2 : points[j]? = some s.remainingPoints[i] := Option.some.inj h1
  exact ⟨h2, _, rfl⟩

theorem LoopInv.index_lt {points : List (Point3f F)} {s : CylState F}
    (hinv : LoopInv points s) (j : Nat) (h : j ∈ s.originalIndices) : j < points.length := by
  obtain ⟨i, hi, hij⟩ := List.getElem_of_mem h
  have h1 : s.originalIndices[i]? = some j := by
    rw [List.getElem?_eq_getElem hi, hij]
  obtain ⟨h2, p, h3⟩ := hinv.getElem?_points i j h1
  rw [h3] at h2
  exact (List.getElem?_eq_some_iff.1 h2).1

theorem loopCond_iff (s : CylState F) :
    loopCond s = true ↔ s.cylinderCount < 4 ∧ s.remainingPoints ≠ [] := by
  cases hrem : s.remainingPoints <;> simp [loopCond, hrem]

/-- A round that starts from a state satisfying the invariant, with an estimator that
returns and a classifier that gives one flag per point, completes and produces
`nextState`. -/
theorem loopBody_eq (est : CylEstimator F) (cls : Classifier F) (points : List (Point3f F))
    (s : CylState F) (prm : Params F) (hinv : LoopInv points s) (hk : s.cylinderCount < 4)
    (hest : est s.cylinderCount s.remainingPoints = some prm)
    (hfl : (cls s.remainingPoints prm).isInliers.length = s.remainingPoints.length) :
    ∃ c, cylinder_Colors[s.cylinderCount]? = some c ∧ c ≠ red ∧
      loopBody est cls s = .ok (nextState s (cls s.remainingPoints prm).isInliers c) := by
  obtain ⟨c, hc, hred⟩ := palette_get s.cylinderCount hk
  refine ⟨c, hc, hred, ?_⟩
  have hb : ∀ j ∈ s.originalIndices, j < s.RANSAC_Colors.length := by
    intro j hj
    rw [hinv.colors_length]
    exact hinv.index_lt j hj
  have hlen := hinv.length_eq
  have h := forLoop_eq s.remainingPoints s.originalIndices (cls s.remainingPoints prm)
    s.cylinderCount c s.RANSAC_Colors s.remainingPoints.length (Nat.le_refl _)
    (Nat.le_of_eq hlen.symm) (Nat.le_of_eq hfl.symm) hc hb
  unfold loopBody
  rw [hest]
  simp only
  rw [h]
  simp only [nextState]
  rw [List.take_of_length_le (Nat.le_of_eq hfl), List.take_of_length_le (Nat.le_of_eq hlen),
    List.take_of_length_le (Nat.le_refl _)]

theorem loopBody_ok_est (est : CylEstimator F) (cls : Classifier F) (s s' : CylState F)
    (h : loopBody est cls s = .ok s') :
    ∃ prm, est s.cylinderCount s.remainingPoints = some prm := by
  unfold loopBody at h
  split at h
  · cases h
  · exact ⟨_, by assumption⟩

theorem loopBody_count (est : CylEstimator F) (cls : Classifier F) (s s' : CylState F)
    (h : loopBody est cls s = .ok s') : s'.cylinderCount = s.cylinderCount + 1 := by
  unfold loopBody at h
  split at h
  · cases h
  · dsimp only at h
    split at h
    · cases h
    · cases h
      rfl

theorem nodup_of_increasing (l : List Nat) (h : l.Pairwise (fun a b => a < b)) : l.Nodup :=
  h.imp (fun hab => Nat.ne_of_lt hab)

/-- Membership in the two halves of the partition of a duplicate-free index list. -/
theorem mem_partition {idx : List Nat} {flags : List Bool} (hnd : idx.Nodup)
    (hle : idx.length ≤ flags.length) (j : Nat) :
    (j ∈ idx ↔ j ∈ inliersOf idx flags ∨ j ∈ outliersOf idx flags) ∧
    ¬ (j ∈ inliersOf idx flags ∧ j ∈ outliersOf idx flags) := by
  have perm := inliersOf_outliersOf_perm idx flags hle
  have nd : (inliersOf idx flags ++ outliersOf idx flags).Nodup := perm.nodup_iff.2 hnd
  constructor
  · rw [← perm.mem_iff, List.mem_append]
  · rintro ⟨h1, h2⟩
    exact (List.nodup_append.1 nd).2.2 h1 h2

/-- The invariant is preserved by a round. -/
theorem LoopInv.next {points : List (Point3f F)} {s : CylState F} (hinv : LoopInv points s)
    (flags : List Bool) (c : Point3i) (hk : s.cylinderCount < 4)
    (hc : cylinder_Colors[s.cylinderCount]? = some c)
    (hfl : flags.length = s.remainingPoints.length) :
    LoopInv points (nextState s flags c) := by
  have hlen := hinv.length_eq
  have hle : s.originalIndices.length ≤ flags.length := by omega
  have hnd := nodup_of_increasing _ hinv.increasing
  refine ⟨?_, ?_, ?_, ?_, ?_⟩
  · show s.cylinderCount + 1 ≤ 4
    omega
  · show (outliersOf s.originalIndices flags).map _ = (outliersOf s.remainingPoints flags).map _
    rw [← outliersOf_map, ← outliersOf_map, hinv.fidelity]
  · exact hinv.increasing.sublist (outliersOf_sublist _ _ hle)
  · show (paint _ _ _).length = _
    rw [paint_length, hinv.colors_length]
  · intro j hj
    obtain ⟨hmem, hdisj⟩ := mem_partition hnd hle j
    show (j ∈ outliersOf s.originalIndices flags ∧
        (paint s.RANSAC_Colors (inliersOf s.originalIndices flags) c)[j]? = some red) ∨
      (j ∉ outliersOf s.originalIndices flags ∧ ∃ k c', k < s.cylinderCount + 1 ∧
        cylinder_Colors[k]? = some c' ∧
        (paint s.RANSAC_Colors (inliersOf s.originalIndices flags) c)[j]? = some c')
    rw [getElem?_paint]
    rcases hinv.coloring j hj with ⟨hin, hred⟩ | ⟨hnot, k, c', hk', hc', hcol⟩
    · by_cases hfl' : j ∈ inliersOf s.originalIndices flags
      · right
        refine ⟨fun ho => hdisj ⟨hfl', ho⟩, s.cylinderCount, c, Nat.lt_succ_self _, hc, ?_⟩
        simp [hfl', hred]
      · left
        refine ⟨?_, ?_⟩
        · rcases hmem.1 hin with h | h
          · exact absurd h hfl'
          · exact h
        · simp [hfl', hred]
    · right
      have h1 : j ∉ inliersOf s.originalIndices flags := fun h => hnot (hmem.2 (Or.inl h))
      have h2 : j ∉ outliersOf s.originalIndices flags := fun h => hnot (hmem.2 (Or.inr h))
      refine ⟨h2, k, c', Nat.lt_succ_of_lt hk', hc', ?_⟩
      simp [h1, hcol]

/-- The invariant holds before the first round. -/
theorem LoopInv.init (points : List (Point3f F)) : LoopInv points (initState points) := by
  refine ⟨Nat.zero_le _, ?_, ?_, ?_, ?_⟩
  · show (List.range points.length).map (fun j => points[j]?) = points.map some
    apply List.ext_getElem?
    intro i
    by_cases hi : i < points.length
    · simp [List.getElem?_map, List.getElem?_range hi, List.getElem?_eq_getElem hi]
    · have hi' : points.length ≤ i := Nat.le_of_not_lt hi
      simp [List.getElem?_map, List.getElem?_eq_none, hi']
  · exact List.pairwise_lt_range _
  · simp [initState]
  · intro j hj
    left
    simp [initState, hj]

/-! ## Round boundaries and the `while` loop -/

theorem whileLoop_unfold (est : CylEstimator F) (cls : Classifier F) (s : CylState F) :
    whileLoop est cls s =
      if loopCond s = true then
        match loopBody est cls s with
        | .error e => .error e
        | .ok s' => whileLoop est cls s'
      else .ok s := by
  rw [whileLoop]
  by_cases hc : loopCond s = true
  · simp only [hc, dite_true, if_true]
    split <;> simp_all
  · simp only [hc, dite_false, if_false]
    rfl

theorem stateAt_succ (est : CylEstimator F) (cls : Classifier F) (s0 s' : CylState F)
    (k : Nat) :
    stateAt est cls s0 (k + 1) = some s' ↔
      ∃ s, stateAt est cls s0 k = some s ∧ loopCond s = true ∧ loopBody est cls s = .ok s' := by
  constructor
  · intro h
    simp only [stateAt] at h
    split at h
    · cases h
    · rename_i s hs
      split at h
      · rename_i hc
        split at h
        · cases h
        · rename_i s1 hb
          cases h
          exact ⟨s, hs, hc, hb⟩
      · cases h
  · rintro ⟨s, hs, hc, hb⟩
    simp only [stateAt, hs, hc, hb, if_true]

theorem stateAt_front (est : CylEstimator F) (cls : Classifier F) (s0 s1 : CylState F)
    (hc : loopCond s0 = true) (hb : loopBody est cls s0 = .ok s1) (k : Nat) :
    stateAt est cls s0 (k + 1) = stateAt est cls s1 k := by
  induction k with
  | zero => simp only [stateAt, hc, hb, if_true]
  | succ k ih =>
    have h1 : stateAt est cls s0 (k + 1 + 1) =
        (match stateAt est cls s0 (k + 1) with
          | none => none
          | some s =>
            if loopCond s = true then
              match loopBody est cls s with
              | .error _ => none
              | .ok s' => some s'
            else none) := rfl
    rw [h1, ih]
    rfl

theorem stateAt_count (est : CylEstimator F) (cls : Classifier F) (s0 s : CylState F)
    (k : Nat) (h : stateAt est cls s0 k = some s) :
    s.cylinderCount = s0.cylinderCount + k := by
  induction k generalizing s with
  | zero =>
    simp only [stateAt] at h
    cases h
    rfl
  | succ k ih =>
    obtain ⟨t, ht, _, hb⟩ := (stateAt_succ est cls s0 s k).1 h
    rw [loopBody_count est cls t s hb, ih t ht]
    omega

/-- Every round boundary satisfies the invariant when the classifier gives one flag per
point. -/
theorem stateAt_inv (est : CylEstimator F) (cls : Classifier F) (points : List (Point3f F))
    (hcls : ∀ pts prm, (cls pts prm).isInliers.length = pts.length)
    (k : Nat) (s : CylState F) (h : stateAt est cls (initState points) k = some s) :
    LoopInv points s := by
  induction k generalizing s with
  | zero =>
    simp only [stateAt] at h
    cases h
    exact LoopInv.init points
  | succ k ih =>
    obtain ⟨t, ht, hc, hb⟩ := (stateAt_succ est cls _ s k).1 h
    have hinv := ih t ht
    obtain ⟨prm, hest⟩ := loopBody_ok_est est cls t s hb
    have hk := ((loopCond_iff t).1 hc).1
    obtain ⟨c, hcol, _, heq⟩ := loopBody_eq est cls points t prm hinv hk hest (hcls _ _)
    rw [hb] at heq
    cases heq
    exact hinv.next _ c hk hcol (hcls _ _)

theorem whileLoop_of_stateAt (est : CylEstimator F) (cls : Classifier F) (s0 s : CylState F)
    (k : Nat) (h : stateAt est cls s0 k = some s) :
    whileLoop est cls s0 = whileLoop est cls s := by
  induction k generalizing s with
  | zero =>
    simp only [stateAt] at h
    cases h
    rfl
  | succ k ih =>
    obtain ⟨t, ht, hc, hb⟩ := (stateAt_succ est cls s0 s k).1 h
    rw [ih t ht, whileLoop_unfold est cls t]
    simp only [hc, hb, if_true]

theorem whileLoop_ok_stateAt (est : CylEstimator F) (cls : Classifier F) (n : Nat)
    (s0 sf : CylState F) (hn : 4 - s0.cylinderCount ≤ n)
    (h : whileLoop est cls s0 = .ok sf) :
    ∃ k, stateAt est cls s0 k = some sf ∧ loopCond sf = false := by
  induction n generalizing s0 with
  | zero =>
    have hc : ¬ loopCond s0 = true := by
      intro hc
      have := ((loopCond_iff s0).1 hc).1
      omega
    rw [whileLoop_unfold] at h
    simp only [hc, if_false] at h
    cases h
    exact ⟨0, rfl, by simpa using hc⟩
  | succ n ih =>
    rw [whileLoop_unfold] at h
    by_cases hc : loopCond s0 = true
    · simp only [hc, if_true] at h
      cases hb : loopBody est cls s0 with
      | error e =>
        rw [hb] at h
        cases h
      | ok s1 =>
        rw [hb] at h
        have hcount := loopBody_count est cls s0 s1 hb
        obtain ⟨k, hk, hf⟩ := ih s1 (by omega) h
        exact ⟨k + 1, by rw [stateAt_front est cls s0 s1 hc hb k]; exact hk, hf⟩
    · simp only [hc, if_false] at h
      cases h
      exact ⟨0, rfl, by simpa using hc⟩

/-- The loop returns `sf` exactly when `sf` is a round boundary at which the test fails. -/
theorem whileLoop_ok_iff (est : CylEstimator F) (cls : Classifier F) (s0 sf : CylState F) :
    whileLoop est cls s0 = .ok sf ↔
      ∃ k, stateAt est cls s0 k = some sf ∧ loopCond sf = false := by
  constructor
  · exact whileLoop_ok_stateAt est cls _ s0 sf (Nat.le_refl _)
  · rintro ⟨k, hk, hf⟩
    rw [whileLoop_of_stateAt est cls s0 sf k hk, whileLoop_unfold]
    simp [hf]

theorem stateAt_none_after (est : CylEstimator F) (cls : Classifier F) (s0 sf : CylState F)
    (K : Nat) (h : stateAt est cls s0 K = some sf) (hf : loopCond sf = false) (m : Nat) :
    stateAt est cls s0 (K + 1 + m) = none := by
  induction m with
  | zero => simp [stateAt, h, hf]
  | succ m ih =>
    have h1 : stateAt est cls s0 (K + 1 + (m + 1)) =
        (match stateAt est cls s0 (K + 1 + m) with
          | none => none
          | some s =>
            if loopCond s = true then
              match loopBody est cls s with
              | .error _ => none
              | .ok s' => some s'
            else none) := rfl
    rw [h1, ih]

/-- With an estimator that returns on every non-empty working set and a classifier that
gives one flag per point, the loop started at a state satisfying the invariant returns. -/
theorem whileLoop_returns (est : CylEstimator F) (cls : Classifier F)
    (points : List (Point3f F))
    (hest : ∀ k pts, pts ≠ [] → ∃ prm, est k pts = some prm)
    (hcls : ∀ pts prm, (cls pts prm).isInliers.length = pts.length)
    (n : Nat) (s : CylState F) (hinv : LoopInv points s) (hn : 4 - s.cylinderCount ≤ n) :
    ∃ sf, whileLoop est cls s = .ok sf := by
  induction n generalizing s with
  | zero =>
    have hc : ¬ loopCond s = true := by
      intro hc
      have := ((loopCond_iff s).1 hc).1
      omega
    rw [whileLoop_unfold]
    simp only [hc, if_false]
    exact ⟨s, rfl⟩
  | succ n ih =>
    rw [whileLoop_unfold]
    by_cases hc : loopCond s = true
    · obtain ⟨hk, hne⟩ := (loopCond_iff s).1 hc
      obtain ⟨prm, hprm⟩ := hest s.cylinderCount s.remainingPoints hne
      obtain ⟨c, hcol, _, heq⟩ := loopBody_eq est cls points s prm hinv hk hprm (hcls _ _)
      simp only [hc, heq, if_true]
      apply ih _ (hinv.next _ c hk hcol (hcls _ _))
      show 4 - (s.cylinderCount + 1) ≤ n
      omega
    · simp only [hc, if_false]
      exact ⟨s, rfl⟩

/-! ## Which round flags which point -/

theorem flaggedAt_iff (est : CylEstimator F) (cls : Classifier F) (points : List (Point3f F))
    (k j : Nat) (s : CylState F) (prm : Params F)
    (hs : stateAt est cls (initState points) k = some s) (hc : loopCond s = true)
    (hest : est s.cylinderCount s.remainingPoints = some prm) :
    flaggedAt est cls points k j = true ↔
      j ∈ inliersOf s.originalIndices (cls s.remainingPoints prm).isInliers := by
  simp [flaggedAt, hs, hc, hest]

theorem flaggedAt_lt (est : CylEstimator F) (cls : Classifier F) (points : List (Point3f F))
    (K : Nat) (sf : CylState F) (hs : stateAt est cls (initState points) K = some sf)
    (hf : loopCond sf = false) (k j : Nat) (h : flaggedAt est cls points k j = true) :
    k < K := by
  by_contra hk
  have hle : K ≤ k := Nat.le_of_not_lt hk
  rcases Nat.eq_or_lt_of_le hle with heq | hlt
  · subst heq
    simp [flaggedAt, hs, hf] at h
  · obtain ⟨m, rfl⟩ : ∃ m, k = K + 1 + m := ⟨k - (K + 1), by omega⟩
    simp [flaggedAt, stateAt_none_after est cls _ sf K hs hf m] at h

/-- The history of a slot: either it is still in the working set and no earlier round
flagged it, or exactly one earlier round flagged it and its colour is that round's. -/
theorem stateAt_history (est : CylEstimator F) (cls : Classifier F)
    (points : List (Point3f F))
    (hcls : ∀ pts prm, (cls pts prm).isInliers.length = pts.length)
    (K : Nat) (s : CylState F) (h : stateAt est cls (initState points) K = some s)
    (j : Nat) (hj : j < points.length) :
    (j ∈ s.originalIndices ∧ s.RANSAC_Colors[j]? = some red ∧
        ∀ k, k < K → flaggedAt est cls points k j = false) ∨
    (j ∉ s.originalIndices ∧ ∃ k c, k < K ∧ flaggedAt est cls points k j = true ∧
        cylinder_Colors[k]? = some c ∧ s.RANSAC_Colors[j]? = some c ∧
        ∀ k', k' < K → flaggedAt est cls points k' j = true → k' = k) := by
  induction K generalizing s with
  | zero =>
    simp only [stateAt] at h
    cases h
    left
    refine ⟨by simp [initState, hj], by simp [initState, hj], ?_⟩
    intro k hk
    omega
  | succ K ih =>
    obtain ⟨t, ht, hc, hb⟩ := (stateAt_succ est cls _ s K).1 h
    have hinv := stateAt_inv est cls points hcls K t ht
    obtain ⟨prm, hest⟩ := loopBody_ok_est est cls t s hb
    have hk := ((loopCond_iff t).1 hc).1
    obtain ⟨c, hcol, _, heq⟩ := loopBody_eq est cls points t prm hinv hk hest (hcls _ _)
    rw [hb] at heq
    cases heq
    have hcount : t.cylinderCount = K := by
      have := stateAt_count est cls _ t K ht
      simpa [initState] using this
    rw [hcount] at hcol
    have hflag := flaggedAt_iff est cls points K j t prm ht hc hest
    have hle : t.originalIndices.length ≤ (cls t.remainingPoints prm).isInliers.length := by
      rw [hcls, hinv.length_eq]
    obtain ⟨hmem, hdisj⟩ := mem_partition (nodup_of_increasing _ hinv.increasing) hle j
    have hsome : ∃ c0, t.RANSAC_Colors[j]? = some c0 := by
      have hjl : j < t.RANSAC_Colors.length := by rw [hinv.colors_length]; exact hj
      exact ⟨_, List.getElem?_eq_getElem hjl⟩
    show (j ∈ outliersOf t.originalIndices _ ∧ (paint _ _ _)[j]? = some red ∧ _) ∨
      (j ∉ outliersOf t.originalIndices _ ∧ ∃ k c', _ ∧ _ ∧ _ ∧ (paint _ _ _)[j]? = some c' ∧ _)
    rw [getElem?_paint]
    rcases ih t ht with ⟨hin, hred, hnever⟩ | ⟨hnot, k, c', hkK, hfk, hck, hcolk, huniq⟩
    · by_cases hfl : j ∈ inliersOf t.originalIndices (cls t.remainingPoints prm).isInliers
      · right
        refine ⟨fun ho => hdisj ⟨hfl, ho⟩, K, c, Nat.lt_succ_self _, hflag.2 hfl, hcol, ?_, ?_⟩
        · simp [hfl, hred]
        · intro k' hk' hfk'
          rcases Nat.eq_or_lt_of_le (Nat.le_of_lt_succ hk') with h1 | h1
          · exact h1
          · rw [hnever k' h1] at hfk'
            cases hfk'
      · left
        refine ⟨?_, by simp [hfl, hred], ?_⟩
        · rcases hmem.1 hin with h1 | h1
          · exact absurd h1 hfl
          · exact h1
        · intro k' hk'
          rcases Nat.eq_or_lt_of_le (Nat.le_of_lt_succ hk') with h1 | h1
          · subst h1
            cases hv : flaggedAt est cls points k' j
            · rfl
            · exact absurd (hflag.1 hv) hfl
          · exact hnever k' h1
    · have h1 : j ∉ inliersOf t.originalIndices (cls t.remainingPoints prm).isInliers :=
        fun h => hnot (hmem.2 (Or.inl h))
      have h2 : j ∉ outliersOf t.originalIndices (cls t.remainingPoints prm).isInliers :=
        fun h => hnot (hmem.2 (Or.inr h))
      right
      refine ⟨h2, k, c', Nat.lt_succ_of_lt hkK, hfk, hck, by simp [h1, hcolk], ?_⟩
      intro k' hk' hfk'
      rcases Nat.eq_or_lt_of_le (Nat.le_of_lt_succ hk') with h3 | h3
      · subst h3
        exact absurd (hflag.1 hfk') h1
      · exact huniq k' h3 hfk'

/-! ## Properties of the cylinder branch -/

/-- Claim C1 (index fidelity).  At every round boundary, every position `i` of the
working set holds the point `points[originalIndices[i]]`; and when the round at that
boundary runs, every position flagged as an inlier gets the palette colour of the round
written at the slot of its original point, while every slot that is not the original
index of a flagged position keeps its colour. -/
theorem index_fidelity (est : CylEstimator F) (cls : Classifier F) (points : List (Point3f F))
    (hcls : ∀ pts prm, (cls pts prm).isInliers.length = pts.length)
    (k : Nat) (s : CylState F) (hs : stateAt est cls (initState points) k = some s) :
    (∀ (i : Nat) (p : Point3f F), s.remainingPoints[i]? = some p →
        ∃ j, s.originalIndices[i]? = some j ∧ points[j]? = some p) ∧
    (∀ prm, loopCond s = true → est s.cylinderCount s.remainingPoints = some prm →
      ∃ c s', cylinder_Colors[k]? = some c ∧
        stateAt est cls (initState points) (k + 1) = some s' ∧
        (∀ i : Nat, (cls s.remainingPoints prm).isInliers[i]? = some true →
          ∃ j p, s.originalIndices[i]? = some j ∧ s.remainingPoints[i]? = some p ∧
            points[j]? = some p ∧ s'.RANSAC_Colors[j]? = some c) ∧
        (∀ j : Nat, (¬ ∃ i : Nat, s.originalIndices[i]? = some j ∧
              (cls s.remainingPoints prm).isInliers[i]? = some true) →
          s'.RANSAC_Colors[j]? = s.RANSAC_Colors[j]?)) := by
  have hinv := stateAt_inv est cls points hcls k s hs
  have hcount : s.cylinderCount = k := by
    have := stateAt_count est cls _ s k hs
    simpa [initState] using this
  have hpos : ∀ i : Nat, i < s.remainingPoints.length →
      ∃ j, s.originalIndices[i]? = some j ∧ points[j]? = s.remainingPoints[i]? := by
    intro i hi
    have hi' : i < s.originalIndices.length := by rw [hinv.length_eq]; exact hi
    exact ⟨_, List.getElem?_eq_getElem hi',
      (hinv.getElem?_points i _ (List.getElem?_eq_getElem hi')).1⟩
  constructor
  · intro i p hp
    obtain ⟨j, hj1, hj2⟩ := hpos i (List.getElem?_eq_some_iff.1 hp).1
    exact ⟨j, hj1, by rw [hj2, hp]⟩
  · intro prm hc hest
    have hk := ((loopCond_iff s).1 hc).1
    obtain ⟨c, hcol, _, heq⟩ := loopBody_eq est cls points s prm hinv hk hest (hcls _ _)
    refine ⟨c, _, by rw [← hcount]; exact hcol,
      (stateAt_succ est cls _ _ k).2 ⟨s, hs, hc, heq⟩, ?_, ?_⟩
    · intro i hfl
      have hi : i < s.remainingPoints.length := by
        rw [← hcls s.remainingPoints prm]
        exact (List.getElem?_eq_some_iff.1 hfl).1
      obtain ⟨j, hj1, hj2⟩ := hpos i hi
      refine ⟨j, s.remainingPoints[i], hj1, List.getElem?_eq_getElem hi, ?_, ?_⟩
      · rw [hj2, List.getElem?_eq_getElem hi]
      · have hmem : j ∈ inliersOf s.originalIndices (cls s.remainingPoints prm).isInliers :=
          (mem_inliersOf_iff _ _ j).2 ⟨i, hj1, hfl⟩
        have hjl : j < s.RANSAC_Colors.length := by
          rw [hinv.colors_length]
          exact hinv.index_lt j (List.getElem?_mem hj1)
        show (paint _ _ _)[j]? = some c
        rw [getElem?_paint]
        simp [hmem, List.getElem?_eq_getElem hjl]
    · intro j hno
      have hmem : j ∉ inliersOf s.originalIndices (cls s.remainingPoints prm).isInliers :=
        fun h => hno ((mem_inliersOf_iff _ _ j).1 h)
      show (paint _ _ _)[j]? = _
      rw [getElem?_paint]
      simp [hmem]

/-- The statement of C1 on the sample run, at the first round boundary. -/
theorem index_fidelity_witness :
    (∀ (i : Nat) (p : Point3f Int), (initState samplePoints).remainingPoints[i]? = some p →
        ∃ j, (initState samplePoints).originalIndices[i]? = some j ∧
          samplePoints[j]? = some p) ∧
    (∀ prm, loopCond (initState samplePoints) = true →
      sampleEst (initState samplePoints).cylinderCount
          (initState samplePoints).remainingPoints = some prm →
      ∃ c s', cylinder_Colors[0]? = some c ∧
        stateAt sampleEst sampleCls (initState samplePoints) (0 + 1) = some s' ∧
        (∀ i : Nat,
          (sampleCls (initState samplePoints).remainingPoints prm).isInliers[i]? = some true →
          ∃ j p, (initState samplePoints).originalIndices[i]? = some j ∧
            (initState samplePoints).remainingPoints[i]? = some p ∧
            samplePoints[j]? = some p ∧ s'.RANSAC_Colors[j]? = some c) ∧
        (∀ j : Nat, (¬ ∃ i : Nat, (initState samplePoints).originalIndices[i]? = some j ∧
              (sampleCls (initState samplePoints).remainingPoints prm).isInliers[i]?
                = some true) →
          s'.RANSAC_Colors[j]? = (initState samplePoints).RANSAC_Colors[j]?)) :=
  index_fidelity sampleEst sampleCls samplePoints
    (fun pts prm => by simp [sampleCls]) 0 (initState samplePoints) rfl

/-- Claim C2 (no point duplicated or dropped).  At every round boundary, and in the state
the loop returns, every original index `j` is in exactly one of two situations: an earlier
round flagged it, its colour is that round's palette colour (not red) and it does not
occur in `originalIndices`; or its colour is red and it occurs in `originalIndices`
exactly once. -/
theorem no_point_duplicated_or_dropped (est : CylEstimator F) (cls : Classifier F)
    (points : List (Point3f F))
    (hcls : ∀ pts prm, (cls pts prm).isInliers.length = pts.length)
    (j : Nat) (hj : j < points.length) :
    (∀ k s, stateAt est cls (initState points) k = some s →
      ((∃ k' c, k' < k ∧ flaggedAt est cls points k' j = true ∧
          cylinder_Colors[k']? = some c ∧ s.RANSAC_Colors[j]? = some c ∧ c ≠ red) ∧
        s.originalIndices.count j = 0 ∧ s.RANSAC_Colors[j]? ≠ some red) ∨
      ((¬ ∃ k', k' < k ∧ flaggedAt est cls points k' j = true) ∧
        s.originalIndices.count j = 1 ∧ s.RANSAC_Colors[j]? = some red)) ∧
    (∀ sf, whileLoop est cls (initState points) = .ok sf →
      ∃ k, stateAt est cls (initState points) k = some sf) := by
  constructor
  · intro k s hs
    have hinv := stateAt_inv est cls points hcls k s hs
    have hnd := nodup_of_increasing _ hinv.increasing
    rcases stateAt_history est cls points hcls k s hs j hj with
      ⟨hin, hred, hnever⟩ | ⟨hnot, k', c, hk', hfl, hc, hcol, _⟩
    · right
      refine ⟨?_, List.count_eq_one_of_mem hnd hin, hred⟩
      rintro ⟨k', hk', hfl⟩
      rw [hnever k' hk'] at hfl
      cases hfl
    · left
      have hne := palette_ne_red k' c hc
      refine ⟨⟨k', c, hk', hfl, hc, hcol, hne⟩, List.count_eq_zero_of_not_mem hnot, ?_⟩
      rw [hcol]
      intro h
      exact hne (Option.some.inj h)
  · intro sf hsf
    obtain ⟨k, hk, _⟩ := (whileLoop_ok_iff est cls _ sf).1 hsf
    exact ⟨k, hk⟩

/-- The statement of C2 on the sample run, for the original index `1`. -/
theorem no_point_duplicated_or_dropped_witness :
    (∀ k s, stateAt sampleEst sampleCls (initState samplePoints) k = some s →
      ((∃ k' c, k' < k ∧ flaggedAt sampleEst sampleCls samplePoints k' 1 = true ∧
          cylinder_Colors[k']? = some c ∧ s.RANSAC_Colors[1]? = some c ∧ c ≠ red) ∧
        s.originalIndices.count 1 = 0 ∧ s.RANSAC_Colors[1]? ≠ some red) ∨
      ((¬ ∃ k', k' < k ∧ flaggedAt sampleEst sampleCls samplePoints k' 1 = true) ∧
        s.originalIndices.count 1 = 1 ∧ s.RANSAC_Colors[1]? = some red)) ∧
    (∀ sf, whileLoop sampleEst sampleCls (initState samplePoints) = .ok sf →
      ∃ k, stateAt sampleEst sampleCls (initState samplePoints) k = some sf) :=
  no_point_duplicated_or_dropped sampleEst sampleCls samplePoints
    (fun pts prm => by simp [sampleCls]) 1 (by decide)

/-- Claim C4 (partition invariant).  For every executed round, from the boundary `k` to
the boundary `k + 1`: the size of the next working set plus the number of flags that are
`true` is the size of the working set, and the next working set and its index list are
exactly the entries whose flag is `false`, in order. -/
theorem partition_invariant (est : CylEstimator F) (cls : Classifier F)
    (points : List (Point3f F))
    (hcls : ∀ pts prm, (cls pts prm).isInliers.length = pts.length)
    (k : Nat) (s s' : CylState F)
    (hs : stateAt est cls (initState points) k = some s)
    (hs' : stateAt est cls (initState points) (k + 1) = some s') :
    ∃ prm, est s.cylinderCount s.remainingPoints = some prm ∧
      s'.remainingPoints.length + (cls s.remainingPoints prm).isInliers.count true
        = s.remainingPoints.length ∧
      s'.remainingPoints = outliersOf s.remainingPoints (cls s.remainingPoints prm).isInliers ∧
      s'.originalIndices = outliersOf s.originalIndices (cls s.remainingPoints prm).isInliers := by
  obtain ⟨t, ht, hc, hb⟩ := (stateAt_succ est cls _ s' k).1 hs'
  rw [hs] at ht
  cases ht
  have hinv := stateAt_inv est cls points hcls k s hs
  obtain ⟨prm, hest⟩ := loopBody_ok_est est cls s s' hb
  have hk := ((loopCond_iff s).1 hc).1
  obtain ⟨c, _, _, heq⟩ := loopBody_eq est cls points s prm hinv hk hest (hcls _ _)
  rw [hb] at heq
  cases heq
  refine ⟨prm, hest, ?_, rfl, rfl⟩
  have hfl := hcls s.remainingPoints prm
  have hperm := inliersOf_outliersOf_perm s.remainingPoints
    (cls s.remainingPoints prm).isInliers (Nat.le_of_eq hfl.symm)
  have hlen := hperm.length_eq
  rw [List.length_append, length_inliersOf _ _ hfl.symm] at hlen
  show (outliersOf s.remainingPoints _).length + _ = _
  omega

/-- The statement of C4 on the first round of the sample run. -/
theorem partition_invariant_witness :
    ∃ prm, sampleEst (initState samplePoints).cylinderCount
        (initState samplePoints).remainingPoints = some prm ∧
      [(⟨1, 0, 0⟩ : Point3f Int), ⟨5, 5, 5⟩].length
          + (sampleCls (initState samplePoints).remainingPoints prm).isInliers.count true
        = (initState samplePoints).remainingPoints.length ∧
      [(⟨1, 0, 0⟩ : Point3f Int), ⟨5, 5, 5⟩]
        = outliersOf (initState samplePoints).remainingPoints
            (sampleCls (initState samplePoints).remainingPoints prm).isInliers ∧
      [0, 2] = outliersOf (initState samplePoints).originalIndices
            (sampleCls (initState samplePoints).remainingPoints prm).isInliers :=
  partition_invariant sampleEst sampleCls samplePoints (fun pts prm => by simp [sampleCls])
    0 (initState samplePoints)
    ⟨1, [⟨1, 0, 0⟩, ⟨5, 5, 5⟩], [0, 2], [⟨255, 0, 0⟩, ⟨160, 32, 240⟩, ⟨255, 0, 0⟩]⟩ rfl rfl

/-- Claim C6 (working-set invariant).  The initial index list is `[0 .. N)`; at every
round boundary, and in the state the loop returns, `remainingPoints` and
`originalIndices` have the same length, every entry of `originalIndices` is below `N`,
and no index occurs twice. -/
theorem working_set_invariant (est : CylEstimator F) (cls : Classifier F)
    (points : List (Point3f F))
    (hcls : ∀ pts prm, (cls pts prm).isInliers.length = pts.length) :
    (initState points).originalIndices = List.range points.length ∧
    (initState points).remainingPoints = points ∧
    (∀ k s, stateAt est cls (initState points) k = some s →
      s.remainingPoints.length = s.originalIndices.length ∧
      (∀ j ∈ s.originalIndices, j < points.length) ∧
      s.originalIndices.Nodup) ∧
    (∀ sf, whileLoop est cls (initState points) = .ok sf →
      sf.remainingPoints.length = sf.originalIndices.length ∧
      (∀ j ∈ sf.originalIndices, j < points.length) ∧
      sf.originalIndices.Nodup) := by
  have key : ∀ k s, stateAt est cls (initState points) k = some s →
      s.remainingPoints.length = s.originalIndices.length ∧
      (∀ j ∈ s.originalIndices, j < points.length) ∧
      s.originalIndices.Nodup := by
    intro k s hs
    have hinv := stateAt_inv est cls points hcls k s hs
    exact ⟨hinv.length_eq.symm, hinv.index_lt, nodup_of_increasing _ hinv.increasing⟩
  refine ⟨rfl, rfl, key, ?_⟩
  intro sf hsf
  obtain ⟨k, hk, _⟩ := (whileLoop_ok_iff est cls _ sf).1 hsf
  exact key k sf hk

/-- The statement of C6 on the sample run. -/
theorem working_set_invariant_witness :
    (initState samplePoints).originalIndices = List.range samplePoints.length ∧
    (initState samplePoints).remainingPoints = samplePoints ∧
    (∀ k s, stateAt sampleEst sampleCls (initState samplePoints) k = some s →
      s.remainingPoints.length = s.originalIndices.length ∧
      (∀ j ∈ s.originalIndices, j < samplePoints.length) ∧
      s.originalIndices.Nodup) ∧
    (∀ sf, whileLoop sampleEst sampleCls (initState samplePoints) = .ok sf →
      sf.remainingPoints.length = sf.originalIndices.length ∧
      (∀ j ∈ sf.originalIndices, j < samplePoints.length) ∧
      sf.originalIndices.Nodup) :=
  working_set_invariant sampleEst sampleCls samplePoints (fun pts prm => by simp [sampleCls])

theorem stateAt_le_four (est : CylEstimator F) (cls : Classifier F) (s0 s : CylState F)
    (h0 : s0.cylinderCount = 0) (k : Nat) (h : stateAt est cls s0 k = some s) :
    s.cylinderCount = k ∧ k ≤ 4 := by
  have hcount : s.cylinderCount = k := by
    have := stateAt_count est cls s0 s k h
    omega
  refine ⟨hcount, ?_⟩
  cases k with
  | zero => omega
  | succ k =>
    obtain ⟨t, ht, hc, _⟩ := (stateAt_succ est cls s0 s k).1 h
    have h1 := stateAt_count est cls s0 t k ht
    have h2 := ((loopCond_iff t).1 hc).1
    omega

theorem cylinderBranch_ok_iff (est : CylEstimator F) (cls : Classifier F)
    (points : List (Point3f F)) (out : PlyArgs F) :
    cylinderBranch est cls points = .ok out ↔
      ∃ sf, whileLoop est cls (initState points) = .ok sf ∧
        out = ⟨points, sf.RANSAC_Colors⟩ := by
  unfold cylinderBranch
  cases h : whileLoop est cls (initState points) with
  | error e => simp
  | ok sf =>
    simp only [Except.ok.injEq, exists_eq_left']
    exact eq_comm

/-- Claim C5 (termination).  The loop is the total function `whileLoop`, defined by
recursion on the measure `4 - cylinderCount`.  At the `k`-th round boundary the counter
is `k` and `k ≤ 4`, so there is no boundary after the fourth round; the loop test fails
at a boundary exactly when `k = 4` or the working set is empty; a round is only run from
a boundary whose test succeeds; every state the loop returns is such a boundary, with
`cylinderCount = 4` or `remainingPoints` empty; and the loop does return when the
estimator returns on every non-empty working set and the classifier gives one flag per
point. -/
theorem loop_terminates (est : CylEstimator F) (cls : Classifier F)
    (points : List (Point3f F)) :
    (∀ k s, stateAt est cls (initState points) k = some s → s.cylinderCount = k ∧ k ≤ 4) ∧
    (∀ k, 4 < k → stateAt est cls (initState points) k = none) ∧
    (∀ k s, stateAt est cls (initState points) k = some s →
      (loopCond s = false ↔ k = 4 ∨ s.remainingPoints = [])) ∧
    (∀ k s, stateAt est cls (initState points) k = some s → loopCond s = false →
      stateAt est cls (initState points) (k + 1) = none) ∧
    (∀ sf, whileLoop est cls (initState points) = .ok sf →
      (sf.cylinderCount = 4 ∨ sf.remainingPoints = []) ∧
      ∃ k, k ≤ 4 ∧ stateAt est cls (initState points) k = some sf) ∧
    ((∀ k pts, pts ≠ [] → ∃ prm, est k pts = some prm) →
      (∀ pts prm, (cls pts prm).isInliers.length = pts.length) →
      ∃ sf, whileLoop est cls (initState points) = .ok sf) := by
  have hbound := fun k s => stateAt_le_four est cls (initState points) s rfl k
  have hstop : ∀ k s, stateAt est cls (initState points) k = some s →
      (loopCond s = false ↔ k = 4 ∨ s.remainingPoints = []) := by
    intro k s hs
    obtain ⟨h1, h2⟩ := hbound k s hs
    have hiff := loopCond_iff s
    constructor
    · intro hf
      by_cases hr : s.remainingPoints = []
      · exact Or.inr hr
      · left
        by_contra hk
        have : loopCond s = true := hiff.2 ⟨by omega, hr⟩
        rw [hf] at this
        cases this
    · intro h
      cases hv : loopCond s with
      | false => rfl
      | true =>
        obtain ⟨h3, h4⟩ := hiff.1 hv
        rcases h with h | h
        · omega
        · exact absurd h h4
  refine ⟨hbound, ?_, hstop, ?_, ?_, ?_⟩
  · intro k hk
    cases h : stateAt est cls (initState points) k with
    | none => rfl
    | some s =>
      have := (hbound k s h).2
      omega
  · intro k s hs hf
    exact stateAt_none_after est cls _ s k hs hf 0
  · intro sf hsf
    obtain ⟨k, hk, hf⟩ := (whileLoop_ok_iff est cls _ sf).1 hsf
    obtain ⟨h1, h2⟩ := hbound k sf hk
    refine ⟨?_, k, h2, hk⟩
    rcases (hstop k sf hk).1 hf with h | h
    · left
      omega
    · exact Or.inr h
  · intro hest hcls
    exact whileLoop_returns est cls points hest hcls _ _ (LoopInv.init points) (Nat.le_refl _)

/-- The statement of C5 on the sample run, whose loop returns after four rounds. -/
theorem loop_terminates_witness :
    (∀ k pts, pts ≠ [] → ∃ prm, sampleEst k pts = some prm) ∧
    (∀ pts prm, (sampleCls pts prm).isInliers.length = pts.length) ∧
    ∃ sf, whileLoop sampleEst sampleCls (initState samplePoints) = .ok sf :=
  ⟨fun k _ _ => ⟨_, rfl⟩, fun pts prm => by simp [sampleCls],
    (loop_terminates sampleEst sampleCls samplePoints).2.2.2.2.2
      (fun k _ _ => ⟨_, rfl⟩) (fun pts prm => by simp [sampleCls])⟩

/-- The history of a slot in the state the loop returns. -/
theorem final_history (est : CylEstimator F) (cls : Classifier F) (points : List (Point3f F))
    (hcls : ∀ pts prm, (cls pts prm).isInliers.length = pts.length)
    (sf : CylState F) (hsf : whileLoop est cls (initState points) = .ok sf)
    (j : Nat) (hj : j < points.length) :
    (sf.RANSAC_Colors[j]? = some red ∧ ∀ k, flaggedAt est cls points k j = false) ∨
    (∃ k c, flaggedAt est cls points k j = true ∧ cylinder_Colors[k]? = some c ∧
        sf.RANSAC_Colors[j]? = some c ∧
        ∀ k', flaggedAt est cls points k' j = true → k' = k) := by
  obtain ⟨K, hK, hf⟩ := (whileLoop_ok_iff est cls _ sf).1 hsf
  have hlt := flaggedAt_lt est cls points K sf hK hf
  rcases stateAt_history est cls points hcls K sf hK j hj with
    ⟨_, hred, hnever⟩ | ⟨_, k, c, _, hfl, hc, hcol, huniq⟩
  · left
    refine ⟨hred, ?_⟩
    intro k
    cases hv : flaggedAt est cls points k j with
    | false => rfl
    | true =>
      rw [hnever k (hlt k j hv)] at hv
      cases hv
  · right
    exact ⟨k, c, hfl, hc, hcol, fun k' hk' => huniq k' (hlt k' j hk') hk'⟩

/-- Claim C3 (final colouring).  In the colour vector handed to `WritePLY`, slot `j` holds
the palette colour of round `k` exactly when round `k` was executed with `j` still in the
working set and flagged as an inlier; it is red exactly when no round flagged `j`; at most
one round flags `j`, and within a round `j` sits at one position only, so a slot is
written at most once.  When no round after the second flags `j`, the colour is purple if
round 0 flagged `j`, pink if round 1 did, and red otherwise; these three colours differ. -/
theorem final_colouring (est : CylEstimator F) (cls : Classifier F)
    (points : List (Point3f F))
    (hcls : ∀ pts prm, (cls pts prm).isInliers.length = pts.length)
    (out : PlyArgs F) (hout : cylinderBranch est cls points = .ok out)
    (j : Nat) (hj : j < points.length) :
    (∀ k c, cylinder_Colors[k]? = some c →
      (out.colors[j]? = some c ↔ flaggedAt est cls points k j = true)) ∧
    (out.colors[j]? = some red ↔ ∀ k, flaggedAt est cls points k j = false) ∧
    (∀ k k', flaggedAt est cls points k j = true → flaggedAt est cls points k' j = true →
      k = k') ∧
    (∀ k s (i i' : Nat), stateAt est cls (initState points) k = some s →
      s.originalIndices[i]? = some j → s.originalIndices[i']? = some j → i = i') ∧
    ((∀ k, 2 ≤ k → flaggedAt est cls points k j = false) →
      out.colors[j]? = some
        (if flaggedAt est cls points 0 j = true then ⟨160, 32, 240⟩
         else if flaggedAt est cls points 1 j = true then ⟨255, 192, 203⟩
         else red)) ∧
    ((⟨160, 32, 240⟩ : Point3i) ≠ ⟨255, 192, 203⟩ ∧ (⟨160, 32, 240⟩ : Point3i) ≠ red ∧
      (⟨255, 192, 203⟩ : Point3i) ≠ red) := by
  obtain ⟨sf, hsf, rfl⟩ := (cylinderBranch_ok_iff est cls points out).1 hout
  show (∀ k c, cylinder_Colors[k]? = some c →
      (sf.RANSAC_Colors[j]? = some c ↔ flaggedAt est cls points k j = true)) ∧
    (sf.RANSAC_Colors[j]? = some red ↔ ∀ k, flaggedAt est cls points k j = false) ∧ _
  have hfin := final_history est cls points hcls sf hsf j hj
  have h1 : ∀ k c, cylinder_Colors[k]? = some c →
      (sf.RANSAC_Colors[j]? = some c ↔ flaggedAt est cls points k j = true) := by
    intro k c hc
    rcases hfin with ⟨hred, hnever⟩ | ⟨k0, c0, hfl, hc0, hcol, huniq⟩
    · constructor
      · intro h
        rw [hred] at h
        exact absurd (Option.some.inj h).symm (palette_ne_red k c hc)
      · intro h
        rw [hnever k] at h
        cases h
    · constructor
      · intro h
        rw [hcol] at h
        have hcc : c0 = c := Option.some.inj h
        subst hcc
        rw [palette_injective k k0 c0 hc hc0]
        exact hfl
      · intro h
        have hk := huniq k h
        subst hk
        rw [hc] at hc0
        rw [hcol, hc0]
  refine ⟨h1, ?_, ?_, ?_, ?_, by decide, by decide, by decide⟩
  · rcases hfin with ⟨hred, hnever⟩ | ⟨k0, c0, hfl, hc0, hcol, _⟩
    · exact ⟨fun _ => hnever, fun _ => hred⟩
    · constructor
      · intro h
        rw [hcol] at h
        exact absurd (Option.some.inj h) (palette_ne_red k0 c0 hc0)
      · intro h
        rw [h k0] at hfl
        cases hfl
  · intro k k' hk hk'
    rcases hfin with ⟨_, hnever⟩ | ⟨k0, _, _, _, _, huniq⟩
    · rw [hnever k] at hk
      cases hk
    · rw [huniq k hk, huniq k' hk']
  · intro k s i i' hs hi hi'
    have hinv := stateAt_inv est cls points hcls k s hs
    have hnd := nodup_of_increasing _ hinv.increasing
    obtain ⟨hil, hie⟩ := List.getElem?_eq_some_iff.1 hi
    obtain ⟨hil', hie'⟩ := List.getElem?_eq_some_iff.1 hi'
    exact (List.Nodup.getElem_inj_iff hnd).1 (hie.trans hie'.symm)
  · intro hlate
    by_cases h0 : flaggedAt est cls points 0 j = true
    · rw [if_pos h0]
      exact (h1 0 _ (by rfl)).2 h0
    · rw [if_neg h0]
      by_cases h1' : flaggedAt est cls points 1 j = true
      · rw [if_pos h1']
        exact (h1 1 _ (by rfl)).2 h1'
      · rw [if_neg h1']
        rcases hfin with ⟨hred, _⟩ | ⟨k0, _, hfl, _, _, _⟩
        · exact hred
        · exfalso
          rcases Nat.lt_or_ge k0 2 with hk | hk
          · interval_cases k0
            · exact h0 hfl
            · exact h1' hfl
          · rw [hlate k0 hk] at hfl
            cases hfl

/-- The statement of C3 on the sample run, for the original index `0`, which round 1
flags: the slot ends up pink. -/
theorem final_colouring_witness :
    cylinderBranch sampleEst sampleCls samplePoints
        = .ok ⟨samplePoints, [⟨255, 192, 203⟩, ⟨160, 32, 240⟩, ⟨255, 0, 0⟩]⟩ ∧
    flaggedAt sampleEst sampleCls samplePoints 1 0 = true ∧
    ([(⟨255, 192, 203⟩ : Point3i), ⟨160, 32, 240⟩, ⟨255, 0, 0⟩][0]? = some ⟨255, 192, 203⟩
      ↔ flaggedAt sampleEst sampleCls samplePoints 1 0 = true) :=
  have hrun : cylinderBranch sampleEst sampleCls samplePoints
      = .ok ⟨samplePoints, [⟨255, 192, 203⟩, ⟨160, 32, 240⟩, ⟨255, 0, 0⟩]⟩ :=
    (cylinderBranch_ok_iff _ _ _ _).2
      ⟨⟨4, [⟨5, 5, 5⟩], [2], [⟨255, 192, 203⟩, ⟨160, 32, 240⟩, ⟨255, 0, 0⟩]⟩,
        (whileLoop_ok_iff _ _ _ _).2 ⟨4, by rfl, by rfl⟩, rfl⟩
  ⟨hrun, by rfl,
    (final_colouring sampleEst sampleCls samplePoints
      (fun pts prm => by simp [sampleCls]) _ hrun 0 (by decide)).1 1 ⟨255, 192, 203⟩ (by rfl)⟩

/-! ## Failing and degenerate estimates -/

theorem whileLoop_error_of_stateAt (est : CylEstimator F) (cls : Classifier F)
    (s0 s : CylState F) (k : Nat) (e : Fault) (hs : stateAt est cls s0 k = some s)
    (hc : loopCond s = true) (hb : loopBody est cls s = .error e) :
    whileLoop est cls s0 = .error e := by
  rw [whileLoop_of_stateAt est cls s0 s k hs, whileLoop_unfold]
  simp only [hc, hb, if_true]

theorem loopBody_est_none (est : CylEstimator F) (cls : Classifier F) (s : CylState F)
    (h : est s.cylinderCount s.remainingPoints = none) :
    loopBody est cls s = .error .estimatorFailed := by
  unfold loopBody
  rw [h]

/-- Claim C7 fails on the code: on the sample cloud, with an estimator that fails in the
second round, the first round colours one point, the working set of the second round is
not empty, and the branch ends with the estimator's failure instead of reaching
`WritePLY`. -/
theorem estimator_failure_not_recovered :
    stateAt failingEst sampleCls (initState samplePoints) 1
      = some ⟨1, [⟨1, 0, 0⟩, ⟨5, 5, 5⟩], [0, 2],
          [⟨255, 0, 0⟩, ⟨160, 32, 240⟩, ⟨255, 0, 0⟩]⟩ ∧
    failingEst 1 [⟨1, 0, 0⟩, ⟨5, 5, 5⟩] = none ∧
    cylinderBranch failingEst sampleCls samplePoints = .error .estimatorFailed ∧
    ¬ ∃ out, cylinderBranch failingEst sampleCls samplePoints = .ok out := by
  have hs : stateAt failingEst sampleCls (initState samplePoints) 1
      = some ⟨1, [⟨1, 0, 0⟩, ⟨5, 5, 5⟩], [0, 2],
          [⟨255, 0, 0⟩, ⟨160, 32, 240⟩, ⟨255, 0, 0⟩]⟩ := by rfl
  have hw : whileLoop failingEst sampleCls (initState samplePoints)
      = .error .estimatorFailed :=
    whileLoop_error_of_stateAt _ _ _ _ 1 _ hs (by rfl) (loopBody_est_none _ _ _ (by rfl))
  have hb : cylinderBranch failingEst sampleCls samplePoints = .error .estimatorFailed := by
    unfold cylinderBranch
    rw [hw]
  refine ⟨hs, by rfl, hb, ?_⟩
  rintro ⟨out, hout⟩
  rw [hb] at hout
  cases hout

/-- Claim C7 as amended.  When the estimator fails at a round boundary whose loop test
succeeds (so the working set is not empty), no further round boundary is reached and the
cylinder branch ends with the estimator's failure: `WritePLY` receives nothing. -/
theorem estimator_failure_propagates (est : CylEstimator F) (cls : Classifier F)
    (points : List (Point3f F)) (k : Nat) (s : CylState F)
    (hs : stateAt est cls (initState points) k = some s) (hc : loopCond s = true)
    (hfail : est s.cylinderCount s.remainingPoints = none) :
    s.remainingPoints ≠ [] ∧
    stateAt est cls (initState points) (k + 1) = none ∧
    cylinderBranch est cls points = .error .estimatorFailed ∧
    ¬ ∃ out, cylinderBranch est cls points = .ok out := by
  have hb := loopBody_est_none est cls s hfail
  have hw := whileLoop_error_of_stateAt est cls _ s k _ hs hc hb
  have hcb : cylinderBranch est cls points = .error .estimatorFailed := by
    unfold cylinderBranch
    rw [hw]
  refine ⟨((loopCond_iff s).1 hc).2, ?_, hcb, ?_⟩
  · simp only [stateAt, hs, hc, hb, if_true]
  · rintro ⟨out, hout⟩
    rw [hcb] at hout
    cases hout

/-- The amended C7 on the sample cloud with the estimator that fails in the second round. -/
theorem estimator_failure_propagates_witness :
    ([⟨1, 0, 0⟩, ⟨5, 5, 5⟩] : List (Point3f Int)) ≠ [] ∧
    stateAt failingEst sampleCls (initState samplePoints) (1 + 1) = none ∧
    cylinderBranch failingEst sampleCls samplePoints = .error .estimatorFailed ∧
    ¬ ∃ out, cylinderBranch failingEst sampleCls samplePoints = .ok out :=
  estimator_failure_propagates failingEst sampleCls samplePoints 1
    ⟨1, [⟨1, 0, 0⟩, ⟨5, 5, 5⟩], [0, 2], [⟨255, 0, 0⟩, ⟨160, 32, 240⟩, ⟨255, 0, 0⟩]⟩
    (by rfl) (by rfl) (by rfl)

/-- Claim C8 fails on the code: on the sample cloud, with an estimator that returns the
radius `-1` in every round, the classifier's flags are used all the same; the first round
colours the point of index `1` purple, four rounds run, and that colour is written out. -/
theorem degenerate_fit_is_used :
    degenerateEst 0 samplePoints = some ⟨0, 0, 0, -1⟩ ∧
    (⟨0, 0, 0, -1⟩ : Params Int).p3 ≤ 0 ∧
    stateAt degenerateEst sampleCls (initState samplePoints) 4
      = some ⟨4, [⟨1, 0, 0⟩, ⟨5, 5, 5⟩], [0, 2],
          [⟨255, 0, 0⟩, ⟨160, 32, 240⟩, ⟨255, 0, 0⟩]⟩ ∧
    cylinderBranch degenerateEst sampleCls samplePoints
      = .ok ⟨samplePoints, [⟨255, 0, 0⟩, ⟨160, 32, 240⟩, ⟨255, 0, 0⟩]⟩ := by
  refine ⟨by rfl, by decide, by rfl, ?_⟩
  exact (cylinderBranch_ok_iff _ _ _ _).2
    ⟨⟨4, [⟨1, 0, 0⟩, ⟨5, 5, 5⟩], [0, 2], [⟨255, 0, 0⟩, ⟨160, 32, 240⟩, ⟨255, 0, 0⟩]⟩,
      (whileLoop_ok_iff _ _ _ _).2 ⟨4, by rfl, by rfl⟩, rfl⟩

/-- Claim C8 as amended.  The engine does not inspect the returned parameters: with a
classifier that gives one flag per point, at every round boundary whose loop test
succeeds, whatever vector `prm` the estimator returns, the round completes with the
classifier's flags for `prm` applied: the flagged slots get the palette colour of the
round, the other points form the next working set, the counter is incremented, and the
next round boundary is reached. -/
theorem every_fit_is_classified (est : CylEstimator F) (cls : Classifier F)
    (points : List (Point3f F))
    (hcls : ∀ pts prm, (cls pts prm).isInliers.length = pts.length)
    (k : Nat) (s : CylState F) (prm : Params F)
    (hs : stateAt est cls (initState points) k = some s) (hc : loopCond s = true)
    (hest : est s.cylinderCount s.remainingPoints = some prm) :
    ∃ c, cylinder_Colors[k]? = some c ∧
      stateAt est cls (initState points) (k + 1)
        = some ⟨k + 1, outliersOf s.remainingPoints (cls s.remainingPoints prm).isInliers,
            outliersOf s.originalIndices (cls s.remainingPoints prm).isInliers,
            paint s.RANSAC_Colors
              (inliersOf s.originalIndices (cls s.remainingPoints prm).isInliers) c⟩ := by
  have hinv := stateAt_inv est cls points hcls k s hs
  have hcount : s.cylinderCount = k := by
    have := stateAt_count est cls _ s k hs
    simpa [initState] using this
  have hk := ((loopCond_iff s).1 hc).1
  obtain ⟨c, hcol, _, heq⟩ := loopBody_eq est cls points s prm hinv hk hest (hcls _ _)
  refine ⟨c, by rw [← hcount]; exact hcol, ?_⟩
  rw [(stateAt_succ est cls _ _ k).2 ⟨s, hs, hc, heq⟩, nextState, hcount]

/-- The amended C8 on the first round of the sample cloud with the estimator that returns
the radius `-1`. -/
theorem every_fit_is_classified_witness :
    ∃ c, cylinder_Colors[0]? = some c ∧
      stateAt degenerateEst sampleCls (initState samplePoints) (0 + 1)
        = some ⟨0 + 1,
            outliersOf (initState samplePoints).remainingPoints
              (sampleCls (initState samplePoints).remainingPoints ⟨0, 0, 0, -1⟩).isInliers,
            outliersOf (initState samplePoints).originalIndices
              (sampleCls (initState samplePoints).remainingPoints ⟨0, 0, 0, -1⟩).isInliers,
            paint (initState samplePoints).RANSAC_Colors
              (inliersOf (initState samplePoints).originalIndices
                (sampleCls (initState samplePoints).remainingPoints ⟨0, 0, 0, -1⟩).isInliers)
              c⟩ :=
  every_fit_is_classified degenerateEst sampleCls samplePoints
    (fun pts prm => by simp [sampleCls]) 0 (initState samplePoints) ⟨0, 0, 0, -1⟩
    (by rfl) (by rfl) (by rfl)

/-! ## The sphere branch -/

theorem sphereLoop_eq (d : RANSACDiffs) (n : Nat) (hn : n ≤ d.isInliers.length) :
    (List.range n).foldlM (sphereBody d) []
      = .ok ((d.isInliers.take n).map (fun b => if b = true then green else red)) := by
  induction n with
  | zero => simp [pure, Except.pure]
  | succ n ih =>
    have hlt : n < d.isInliers.length := hn
    rw [List.range_succ, List.foldlM_append, ih (Nat.le_of_lt hlt), List.take_succ,
      List.getElem?_eq_getElem hlt]
    by_cases hfl : d.isInliers[n] = true
    · simp [sphereBody, bind, Except.bind, pure, Except.pure, List.getElem?_eq_getElem hlt, hfl]
    · have hfl' : d.isInliers[n] = false := by simpa using hfl
      simp [sphereBody, bind, Except.bind, pure, Except.pure, List.getElem?_eq_getElem hlt,
        hfl']

theorem sphereLoop_ok_le (d : RANSACDiffs) (n : Nat) (colors : List Point3i)
    (h : (List.range n).foldlM (sphereBody d) [] = .ok colors) :
    n ≤ d.isInliers.length := by
  induction n generalizing colors with
  | zero => exact Nat.zero_le _
  | succ n ih =>
    rw [List.range_succ, List.foldlM_append] at h
    cases hr : (List.range n).foldlM (sphereBody d) [] with
    | error e =>
      rw [hr] at h
      simp [bind, Except.bind] at h
    | ok c' =>
      rw [hr] at h
      by_contra hlt
      have hnone : d.isInliers[n]? = none := List.getElem?_eq_none (by omega)
      simp [bind, Except.bind, sphereBody, hnone] at h

/-- The value of the sphere branch whenever it reaches `WritePLY`. -/
theorem sphereBranch_ok (est : SphEstimator F) (cls : Classifier F)
    (points : List (Point3f F)) (prm : Params F) (hest : est points = some prm)
    (out : PlyArgs F) (h : sphereBranch est cls points = .ok out) :
    points.length ≤ (cls points prm).isInliers.length ∧
    out = ⟨points ++ [⟨prm.p0, prm.p1, prm.p2⟩],
      ((cls points prm).isInliers.take points.length).map
        (fun b => if b = true then green else red) ++ [blue]⟩ := by
  unfold sphereBranch at h
  rw [hest] at h
  simp only at h
  cases hr : (List.range points.length).foldlM (sphereBody (cls points prm)) [] with
  | error e =>
    rw [hr] at h
    cases h
  | ok colors =>
    have hle := sphereLoop_ok_le _ _ _ hr
    rw [sphereLoop_eq _ _ hle] at hr
    rw [sphereLoop_eq _ _ hle] at h
    simp only [Except.ok.injEq] at h
    exact ⟨hle, h.symm⟩

theorem sphereBranch_eq (est : SphEstimator F) (cls : Classifier F)
    (points : List (Point3f F)) (prm : Params F) (hest : est points = some prm)
    (hfl : (cls points prm).isInliers.length = points.length) :
    sphereBranch est cls points = .ok ⟨points ++ [⟨prm.p0, prm.p1, prm.p2⟩],
      (cls points prm).isInliers.map (fun b => if b = true then green else red) ++ [blue]⟩ := by
  unfold sphereBranch
  rw [hest]
  simp only
  rw [sphereLoop_eq _ _ (Nat.le_of_eq hfl.symm), List.take_of_length_le (Nat.le_of_eq hfl)]

/-- Claim C9 (sphere colouring).  When the estimator returns and the classifier gives one
flag per point, the sphere branch reaches `WritePLY`, and for every index `i` below the
number of points the colour at `i` is green when flag `i` is `true` and red when it is
`false`, and the point at `i` is the input point at `i`. -/
theorem sphere_colouring (est : SphEstimator F) (cls : Classifier F)
    (points : List (Point3f F)) (prm : Params F) (hest : est points = some prm)
    (hfl : (cls points prm).isInliers.length = points.length) :
    ∃ out, sphereBranch est cls points = .ok out ∧
      ∀ i : Nat, i < points.length →
        ((cls points prm).isInliers[i]? = some true → out.colors[i]? = some green) ∧
        ((cls points prm).isInliers[i]? = some false → out.colors[i]? = some red) ∧
        ((cls points prm).isInliers[i]? = some true ∨
          (cls points prm).isInliers[i]? = some false) ∧
        out.points[i]? = points[i]? := by
  refine ⟨_, sphereBranch_eq est cls points prm hest hfl, ?_⟩
  intro i hi
  have hi' : i < (cls points prm).isInliers.length := by rw [hfl]; exact hi
  have hcol : ∀ b, (cls points prm).isInliers[i]? = some b →
      ((cls points prm).isInliers.map (fun b => if b = true then green else red)
        ++ [blue])[i]? = some (if b = true then green else red) := by
    intro b hb
    rw [List.getElem?_append_left (by simpa using hi'), List.getElem?_map, hb]
    rfl
  refine ⟨fun h => ?_, fun h => ?_, ?_, ?_⟩
  · simpa using hcol true h
  · simpa using hcol false h
  · rw [List.getElem?_eq_getElem hi']
    cases (cls points prm).isInliers[i] <;> simp
  · show (points ++ _)[i]? = _
    rw [List.getElem?_append_left hi]

/-- The statement of C9 on the sample cloud. -/
theorem sphere_colouring_witness :
    ∃ out, sphereBranch sampleSphereEst sampleCls samplePoints = .ok out ∧
      ∀ i : Nat, i < samplePoints.length →
        ((sampleCls samplePoints ⟨7, 8, 9, 1⟩).isInliers[i]? = some true →
          out.colors[i]? = some green) ∧
        ((sampleCls samplePoints ⟨7, 8, 9, 1⟩).isInliers[i]? = some false →
          out.colors[i]? = some red) ∧
        ((sampleCls samplePoints ⟨7, 8, 9, 1⟩).isInliers[i]? = some true ∨
          (sampleCls samplePoints ⟨7, 8, 9, 1⟩).isInliers[i]? = some false) ∧
        out.points[i]? = samplePoints[i]? :=
  sphere_colouring sampleSphereEst sampleCls samplePoints ⟨7, 8, 9, 1⟩ rfl (by rfl)

/-- Claim C10 (sphere marker).  When the estimator returns `params`, every output of the
sphere branch consists of the `n` input points followed by the single point
`(params[0], params[1], params[2])` and of `n` colours followed by the single colour
blue, so both sequences have length `n + 1` and end with the marker; and the branch does
produce an output when the classifier gives one flag per point. -/
theorem sphere_marker (est : SphEstimator F) (cls : Classifier F)
    (points : List (Point3f F)) (prm : Params F) (hest : est points = some prm) :
    (∀ out, sphereBranch est cls points = .ok out →
      out.points.length = points.length + 1 ∧
      out.points.getLast? = some ⟨prm.p0, prm.p1, prm.p2⟩ ∧
      out.colors.length = points.length + 1 ∧
      out.colors.getLast? = some blue ∧
      out.points = points ++ [⟨prm.p0, prm.p1, prm.p2⟩] ∧
      ∃ colors, colors.length = points.length ∧ out.colors = colors ++ [blue]) ∧
    ((cls points prm).isInliers.length = points.length →
      ∃ out, sphereBranch est cls points = .ok out) := by
  constructor
  · intro out hout
    obtain ⟨hle, rfl⟩ := sphereBranch_ok est cls points prm hest out hout
    have hlen : (((cls points prm).isInliers.take points.length).map
        (fun b => if b = true then green else red)).length = points.length := by
      rw [List.length_map, List.length_take]
      omega
    refine ⟨by simp, by simp, ?_, by simp, rfl, _, hlen, rfl⟩
    show (_ ++ [blue]).length = _
    rw [List.length_append, hlen]
    rfl
  · intro hfl
    exact ⟨_, sphereBranch_eq est cls points prm hest hfl⟩

/-- The statement of C10 on the sample cloud: the marker `(7, 8, 9)` ends the output. -/
theorem sphere_marker_witness :
    sampleSphereEst samplePoints = some ⟨7, 8, 9, 1⟩ ∧
    (∀ out, sphereBranch sampleSphereEst sampleCls samplePoints = .ok out →
      out.points.length = samplePoints.length + 1 ∧
      out.points.getLast? = some ⟨7, 8, 9⟩ ∧
      out.colors.length = samplePoints.length + 1 ∧
      out.colors.getLast? = some blue ∧
      out.points = samplePoints ++ [⟨7, 8, 9⟩] ∧
      ∃ colors, colors.length = samplePoints.length ∧ out.colors = colors ++ [blue]) ∧
    ((sampleCls samplePoints ⟨7, 8, 9, 1⟩).isInliers.length = samplePoints.length →
      ∃ out, sphereBranch sampleSphereEst sampleCls samplePoints = .ok out) :=
  ⟨rfl, sphere_marker sampleSphereEst sampleCls samplePoints ⟨7, 8, 9, 1⟩ rfl⟩

/-! ## Reading and pre-filtering -/

theorem getElem?_tableData (rows : List (D × D × D)) (i : Nat) :
    (tableData rows)[3 * i]? = (rows[i]?).map (fun r => r.1) ∧
    (tableData rows)[3 * i + 1]? = (rows[i]?).map (fun r => r.2.1) ∧
    (tableData rows)[3 * i + 2]? = (rows[i]?).map (fun r => r.2.2) := by
  induction rows generalizing i with
  | nil => simp [tableData]
  | cons r rows ih =>
    cases i with
    | zero => simp [tableData]
    | succ i =>
      obtain ⟨h0, h1, h2⟩ := ih i
      have e0 : 3 * (i + 1) = 3 * i + 1 + 1 + 1 := by omega
      have e1 : 3 * (i + 1) + 1 = 3 * i + 1 + 1 + 1 + 1 := by omega
      have e2 : 3 * (i + 1) + 2 = 3 * i + 2 + 1 + 1 + 1 := by omega
      refine ⟨?_, ?_, ?_⟩
      · rw [e0]
        simpa [tableData] using h0
      · rw [e1]
        simpa [tableData] using h1
      · rw [e2]
        simpa [tableData] using h2

theorem filteredCloud_take_succ (A : Arith D Fl) (rows : List (D × D × D)) (n : Nat)
    (hn : n < rows.length) :
    filteredCloud A (rows.take (n + 1))
      = filteredCloud A (rows.take n)
        ++ (if keeps A rows[n] = true then [toPoint A rows[n]] else []) := by
  unfold filteredCloud
  rw [List.take_succ, List.getElem?_eq_getElem hn, List.filter_append, List.map_append]
  congr 1
  by_cases h : keeps A rows[n] = true <;> simp [h]

theorem readLoop_eq (A : Arith D Fl) (rows : List (D × D × D)) (n : Nat)
    (hn : n ≤ rows.length) :
    (List.range n).foldlM (readBody A (tableData rows)) []
      = .ok (filteredCloud A (rows.take n)) := by
  induction n with
  | zero => simp [filteredCloud, pure, Except.pure]
  | succ n ih =>
    have hlt : n < rows.length := hn
    obtain ⟨h0, h1, h2⟩ := getElem?_tableData rows n
    rw [List.getElem?_eq_getElem hlt] at h0 h1 h2
    rw [List.range_succ, List.foldlM_append, ih (Nat.le_of_lt hlt),
      filteredCloud_take_succ A rows n hlt]
    by_cases hk : keeps A rows[n] = true
    · have hk' : A.gt (distFromOrigo A rows[n].1 rows[n].2.1 rows[n].2.2)
          A.FILTER_LOWEST_DISTANCE = true := hk
      simp [readBody, bind, Except.bind, pure, Except.pure, h0, h1, h2, hk, hk', toPoint]
    · have hk' : ¬ A.gt (distFromOrigo A rows[n].1 rows[n].2.1 rows[n].2.2)
          A.FILTER_LOWEST_DISTANCE = true := hk
      simp [readBody, bind, Except.bind, pure, Except.pure, h0, h1, h2, hk, hk']

/-- The reading loop on a three-column table returns the filtered cloud. -/
theorem readPoints_eq (A : Arith D Fl) (rows : List (D × D × D)) :
    readPoints A (tableOf rows) = .ok (filteredCloud A rows) := by
  unfold readPoints
  have h : (tableOf rows).rowNum.toNat = rows.length := by simp [tableOf]
  rw [h]
  show (List.range rows.length).foldlM (readBody A (tableData rows)) [] = _
  rw [readLoop_eq A rows rows.length (Nat.le_refl _), List.take_length]

/-! ## Dispatch in `main` -/

theorem main_bad_argc (A : Arith D Fl) (load : String → MatrixReaderWriter D)
    (cylEst : CylEstimator Fl) (cylCls : Classifier Fl)
    (sphEst : SphEstimator Fl) (sphCls : Classifier Fl) (argv : List String)
    (h : argv.length ≠ 4) :
    main A load cylEst cylCls sphEst sphCls argv = .exited EXIT_FAILURE := by
  unfold main
  rw [if_pos h]

theorem main_cylinder (A : Arith D Fl) (load : String → MatrixReaderWriter D)
    (cylEst : CylEstimator Fl) (cylCls : Classifier Fl)
    (sphEst : SphEstimator Fl) (sphCls : Classifier Fl) (argv : List String)
    (rows : List (D × D × D)) (h : argv.length = 4)
    (hload : load (argv.getD 1 "") = tableOf rows)
    (hobj : argv.getD 3 "" = "cylinder") :
    main A load cylEst cylCls sphEst sphCls argv =
      match cylinderBranch cylEst cylCls (filteredCloud A rows) with
      | .error e => .fault e
      | .ok out => .written (argv.getD 2 "") out := by
  unfold main
  rw [if_neg (by simp [h])]
  simp only [hload, readPoints_eq, hobj, if_true]

theorem main_sphere (A : Arith D Fl) (load : String → MatrixReaderWriter D)
    (cylEst : CylEstimator Fl) (cylCls : Classifier Fl)
    (sphEst : SphEstimator Fl) (sphCls : Classifier Fl) (argv : List String)
    (rows : List (D × D × D)) (h : argv.length = 4)
    (hload : load (argv.getD 1 "") = tableOf rows)
    (hobj : argv.getD 3 "" = "sphere") :
    main A load cylEst cylCls sphEst sphCls argv =
      match sphereBranch sphEst sphCls (filteredCloud A rows) with
      | .error e => .fault e
      | .ok out => .written (argv.getD 2 "") out := by
  unfold main
  rw [if_neg (by simp [h])]
  have hne : ¬ ("sphere" = "cylinder") := by decide
  simp only [hload, readPoints_eq, hobj, if_true, if_neg hne]

theorem main_bad_kind (A : Arith D Fl) (load : String → MatrixReaderWriter D)
    (cylEst : CylEstimator Fl) (cylCls : Classifier Fl)
    (sphEst : SphEstimator Fl) (sphCls : Classifier Fl) (argv : List String)
    (rows : List (D × D × D)) (h : argv.length = 4)
    (hload : load (argv.getD 1 "") = tableOf rows)
    (hc : argv.getD 3 "" ≠ "cylinder") (hs : argv.getD 3 "" ≠ "sphere") :
    main A load cylEst cylCls sphEst sphCls argv = .exited EXIT_FAILURE := by
  unfold main
  rw [if_neg (by simp [h])]
  simp only [hload, readPoints_eq, if_neg hc, if_neg hs]

/-! ## Shape of the output of the cylinder branch -/

theorem forBody_colors_length (pts : List (Point3f F)) (idx : List Nat) (d : RANSACDiffs)
    (k : Nat) (st st' : ForState F) (i : Nat) (h : forBody pts idx d k st i = .ok st') :
    st'.RANSAC_Colors.length = st.RANSAC_Colors.length := by
  unfold forBody at h
  split at h
  · cases h
  · split at h
    · split at h
      · cases h
        simp
      · cases h
    · cases h
  · split at h
    · cases h
      rfl
    · cases h

theorem forLoop_colors_length (pts : List (Point3f F)) (idx : List Nat) (d : RANSACDiffs)
    (k : Nat) (colors : List Point3i) (n : Nat) (st : ForState F)
    (h : forLoop pts idx d k colors n = .ok st) :
    st.RANSAC_Colors.length = colors.length := by
  induction n generalizing st with
  | zero =>
    simp only [forLoop, List.range_zero, List.foldlM_nil, pure, Except.pure] at h
    cases h
    rfl
  | succ n ih =>
    unfold forLoop at h ih
    rw [List.range_succ, List.foldlM_append] at h
    cases hr : (List.range n).foldlM (forBody pts idx d k) ⟨colors, [], []⟩ with
    | error e =>
      rw [hr] at h
      simp [bind, Except.bind] at h
    | ok st0 =>
      rw [hr] at h
      simp only [bind, Except.bind, List.foldlM_cons, List.foldlM_nil, pure, Except.pure] at h
      cases hb : forBody pts idx d k st0 n with
      | error e =>
        rw [hb] at h
        cases h
      | ok st1 =>
        rw [hb] at h
        have hst : st1 = st := Except.ok.inj h
        subst hst
        rw [forBody_colors_length pts idx d k st0 st1 n hb]
        exact ih st0 hr

theorem loopBody_colors_length (est : CylEstimator F) (cls : Classifier F)
    (s s' : CylState F) (h : loopBody est cls s = .ok s') :
    s'.RANSAC_Colors.length = s.RANSAC_Colors.length := by
  unfold loopBody at h
  split at h
  · cases h
  · dsimp only at h
    split at h
    · cases h
    · rename_i st hst
      cases h
      exact forLoop_colors_length _ _ _ _ _ _ st hst

theorem stateAt_colors_length (est : CylEstimator F) (cls : Classifier F)
    (points : List (Point3f F)) (k : Nat) (s : CylState F)
    (h : stateAt est cls (initState points) k = some s) :
    s.RANSAC_Colors.length = points.length := by
  induction k generalizing s with
  | zero =>
    simp only [stateAt] at h
    cases h
    simp [initState]
  | succ k ih =>
    obtain ⟨t, ht, _, hb⟩ := (stateAt_succ est cls _ s k).1 h
    rw [loopBody_colors_length est cls t s hb]
    exact ih t ht

/-- Whatever the estimator and the classifier do, an output of the cylinder branch has
the input points and as many colours. -/
theorem cylinderBranch_shape (est : CylEstimator F) (cls : Classifier F)
    (points : List (Point3f F)) (out : PlyArgs F)
    (h : cylinderBranch est cls points = .ok out) :
    out.points = points ∧ out.colors.length = points.length := by
  obtain ⟨sf, hsf, rfl⟩ := (cylinderBranch_ok_iff est cls points out).1 h
  obtain ⟨k, hk, _⟩ := (whileLoop_ok_iff est cls _ sf).1 hsf
  exact ⟨rfl, stateAt_colors_length est cls points k sf hk⟩

theorem whileLoop_error_stateAt (est : CylEstimator F) (cls : Classifier F) (n : Nat)
    (s0 : CylState F) (e : Fault) (hn : 4 - s0.cylinderCount ≤ n)
    (h : whileLoop est cls s0 = .error e) :
    ∃ k s, stateAt est cls s0 k = some s ∧ loopCond s = true ∧
      loopBody est cls s = .error e := by
  induction n generalizing s0 with
  | zero =>
    have hc : ¬ loopCond s0 = true := by
      intro hc
      have := ((loopCond_iff s0).1 hc).1
      omega
    rw [whileLoop_unfold] at h
    simp only [hc, if_false] at h
    cases h
  | succ n ih =>
    rw [whileLoop_unfold] at h
    by_cases hc : loopCond s0 = true
    · simp only [hc, if_true] at h
      cases hb : loopBody est cls s0 with
      | error e' =>
        rw [hb] at h
        cases h
        exact ⟨0, s0, rfl, hc, hb⟩
      | ok s1 =>
        rw [hb] at h
        have hcount := loopBody_count est cls s0 s1 hb
        obtain ⟨k, s, hk, hcs, hbs⟩ := ih s1 (by omega) h
        exact ⟨k + 1, s, by rw [stateAt_front est cls s0 s1 hc hb k]; exact hk, hcs, hbs⟩
    · simp only [hc, if_false] at h
      cases h

/-- With one flag per point, every working set is a subsequence of the full cloud and
every index list a subsequence of `[0 .. N)`. -/
theorem stateAt_sublist (est : CylEstimator F) (cls : Classifier F)
    (points : List (Point3f F))
    (hcls : ∀ pts prm, (cls pts prm).isInliers.length = pts.length)
    (k : Nat) (s : CylState F) (h : stateAt est cls (initState points) k = some s) :
    s.remainingPoints.Sublist points ∧
    s.originalIndices.Sublist (List.range points.length) := by
  induction k generalizing s with
  | zero =>
    simp only [stateAt] at h
    cases h
    exact ⟨List.Sublist.refl _, List.Sublist.refl _⟩
  | succ k ih =>
    obtain ⟨t, ht, hc, hb⟩ := (stateAt_succ est cls _ s k).1 h
    have hinv := stateAt_inv est cls points hcls k t ht
    obtain ⟨prm, hest⟩ := loopBody_ok_est est cls t s hb
    have hk := ((loopCond_iff t).1 hc).1
    obtain ⟨c, _, _, heq⟩ := loopBody_eq est cls points t prm hinv hk hest (hcls _ _)
    rw [hb] at heq
    cases heq
    obtain ⟨h1, h2⟩ := ih t ht
    have hfl := hcls t.remainingPoints prm
    refine ⟨(outliersOf_sublist _ _ (Nat.le_of_eq hfl.symm)).trans h1,
      (outliersOf_sublist _ _ ?_).trans h2⟩
    rw [hfl, hinv.length_eq]

/-! ## Shape of the output of the sphere branch and of `main` -/

theorem sphereBranch_ok_est (est : SphEstimator F) (cls : Classifier F)
    (points : List (Point3f F)) (out : PlyArgs F)
    (h : sphereBranch est cls points = .ok out) : ∃ prm, est points = some prm := by
  unfold sphereBranch at h
  split at h
  · cases h
  · exact ⟨_, by assumption⟩

/-- An output of the sphere branch has the input points followed by one more point, and
as many colours. -/
theorem sphereBranch_shape (est : SphEstimator F) (cls : Classifier F)
    (points : List (Point3f F)) (out : PlyArgs F)
    (h : sphereBranch est cls points = .ok out) :
    out.points.dropLast = points ∧ out.points.length = points.length + 1 ∧
    out.colors.length = points.length + 1 := by
  obtain ⟨prm, hest⟩ := sphereBranch_ok_est est cls points out h
  obtain ⟨hle, rfl⟩ := sphereBranch_ok est cls points prm hest out h
  have hlen : (((cls points prm).isInliers.take points.length).map
      (fun b => if b = true then green else red)).length = points.length := by
    rw [List.length_map, List.length_take]
    omega
  refine ⟨by simp, by simp, ?_⟩
  show (_ ++ [blue]).length = _
  rw [List.length_append, hlen]
  rfl

/-- A run of `main` that reaches `WritePLY` had four arguments, a known kind, and hands
over the output of the selected branch on the filtered cloud. -/
theorem main_written (A : Arith D Fl) (load : String → MatrixReaderWriter D)
    (cylEst : CylEstimator Fl) (cylCls : Classifier Fl)
    (sphEst : SphEstimator Fl) (sphCls : Classifier Fl) (argv : List String)
    (rows : List (D × D × D)) (path : String) (out : PlyArgs Fl)
    (hload : load (argv.getD 1 "") = tableOf rows)
    (hmain : main A load cylEst cylCls sphEst sphCls argv = .written path out) :
    argv.length = 4 ∧ path = argv.getD 2 "" ∧
    ((argv.getD 3 "" = "cylinder" ∧
        cylinderBranch cylEst cylCls (filteredCloud A rows) = .ok out) ∨
      (argv.getD 3 "" = "sphere" ∧
        sphereBranch sphEst sphCls (filteredCloud A rows) = .ok out)) := by
  by_cases hlen : argv.length = 4
  · by_cases hc : argv.getD 3 "" = "cylinder"
    · rw [main_cylinder A load cylEst cylCls sphEst sphCls argv rows hlen hload hc] at hmain
      cases hb : cylinderBranch cylEst cylCls (filteredCloud A rows) with
      | error e =>
        rw [hb] at hmain
        cases hmain
      | ok o =>
        rw [hb] at hmain
        cases hmain
        exact ⟨hlen, rfl, Or.inl ⟨hc, rfl⟩⟩
    · by_cases hs : argv.getD 3 "" = "sphere"
      · rw [main_sphere A load cylEst cylCls sphEst sphCls argv rows hlen hload hs] at hmain
        cases hb : sphereBranch sphEst sphCls (filteredCloud A rows) with
        | error e =>
          rw [hb] at hmain
          cases hmain
        | ok o =>
          rw [hb] at hmain
          cases hmain
          exact ⟨hlen, rfl, Or.inr ⟨hs, rfl⟩⟩
      · rw [main_bad_kind A load cylEst cylCls sphEst sphCls argv rows hlen hload hc hs]
          at hmain
        cases hmain
  · rw [main_bad_argc A load cylEst cylCls sphEst sphCls argv hlen] at hmain
    cases hmain

theorem filteredCloud_sublist (A : Arith D Fl) (rows : List (D × D × D)) :
    (filteredCloud A rows).Sublist (rows.map (toPoint A)) :=
  (List.filter_sublist rows).map (toPoint A)

/-! ## Properties of the entry point -/

/-- Claim C11 (order preservation).  Whenever `main` reaches `WritePLY` on a three-column
table, the kind is `cylinder` and the points handed over are exactly the filtered cloud,
or the kind is `sphere` and the points handed over, without their last element (the
marker), are exactly the filtered cloud; the filtered cloud lists kept rows in the order
of the table.  In the cylinder branch this holds for every estimator and classifier. -/
theorem order_preserved (A : Arith D Fl) (load : String → MatrixReaderWriter D)
    (cylEst : CylEstimator Fl) (cylCls : Classifier Fl)
    (sphEst : SphEstimator Fl) (sphCls : Classifier Fl) (argv : List String)
    (rows : List (D × D × D)) (path : String) (out : PlyArgs Fl)
    (hload : load (argv.getD 1 "") = tableOf rows)
    (hmain : main A load cylEst cylCls sphEst sphCls argv = .written path out) :
    ((argv.getD 3 "" = "cylinder" ∧ out.points = filteredCloud A rows) ∨
      (argv.getD 3 "" = "sphere" ∧ out.points.dropLast = filteredCloud A rows ∧
        out.points.length = (filteredCloud A rows).length + 1)) ∧
    (filteredCloud A rows).Sublist (rows.map (toPoint A)) ∧
    (∀ (est : CylEstimator Fl) (cls : Classifier Fl) (points : List (Point3f Fl))
        (o : PlyArgs Fl), cylinderBranch est cls points = .ok o → o.points = points) := by
  obtain ⟨_, _, hbr⟩ := main_written A load cylEst cylCls sphEst sphCls argv rows path out
    hload hmain
  refine ⟨?_, filteredCloud_sublist A rows, ?_⟩
  · rcases hbr with ⟨hc, hb⟩ | ⟨hs, hb⟩
    · exact Or.inl ⟨hc, (cylinderBranch_shape _ _ _ _ hb).1⟩
    · obtain ⟨h1, h2, _⟩ := sphereBranch_shape _ _ _ _ hb
      exact Or.inr ⟨hs, h1, h2⟩
  · intro est cls points o ho
    exact (cylinderBranch_shape est cls points o ho).1

/-- The statement of C11 on the sample table in sphere mode. -/
theorem order_preserved_witness :
    (((["prog", "in.xyz", "out.ply", "sphere"] : List String).getD 3 "" = "cylinder" ∧
        samplePoints ++ [(⟨7, 8, 9⟩ : Point3f Int)] = filteredCloud sampleArith sampleRows) ∨
      ((["prog", "in.xyz", "out.ply", "sphere"] : List String).getD 3 "" = "sphere" ∧
        (samplePoints ++ [(⟨7, 8, 9⟩ : Point3f Int)]).dropLast
          = filteredCloud sampleArith sampleRows ∧
        (samplePoints ++ [(⟨7, 8, 9⟩ : Point3f Int)]).length
          = (filteredCloud sampleArith sampleRows).length + 1)) ∧
    (filteredCloud sampleArith sampleRows).Sublist (sampleRows.map (toPoint sampleArith)) ∧
    (∀ (est : CylEstimator Int) (cls : Classifier Int) (points : List (Point3f Int))
        (o : PlyArgs Int), cylinderBranch est cls points = .ok o → o.points = points) :=
  order_preserved sampleArith sampleLoad sampleEst sampleCls sampleSphereEst sampleCls
    ["prog", "in.xyz", "out.ply", "sphere"] sampleRows "out.ply"
    ⟨samplePoints ++ [⟨7, 8, 9⟩], [red, red, red, blue]⟩ rfl (by rfl)

/-- Claim C12 fails on the code: on a table whose only row is dropped by the pre-filter,
in sphere mode, with an estimator that returns a vector for the empty cloud, `main`
reaches `WritePLY` and hands over one record, the blue marker. -/
theorem empty_sphere_writes_marker :
    filteredCloud sampleArith originRows = [] ∧
    main sampleArith originLoad sampleEst sampleCls sampleSphereEst sampleCls
        ["prog", "in.xyz", "out.ply", "sphere"]
      = .written "out.ply" ⟨[⟨7, 8, 9⟩], [blue]⟩ := by
  constructor
  · rfl
  · rfl

/-- Claim C12 as amended.  On the empty cloud the sphere branch has no guard of its own:
it calls the estimator; when the estimator fails, the branch ends with that failure and
`WritePLY` receives nothing; when the estimator returns `params`, the colouring loop runs
zero times and `WritePLY` receives exactly one record, the marker
`(params[0], params[1], params[2])` coloured blue. -/
theorem empty_sphere (est : SphEstimator F) (cls : Classifier F) :
    (est [] = none → sphereBranch est cls [] = .error .estimatorFailed) ∧
    (∀ prm, est [] = some prm →
      sphereBranch est cls [] = .ok ⟨[⟨prm.p0, prm.p1, prm.p2⟩], [blue]⟩) := by
  constructor
  · intro h
    unfold sphereBranch
    rw [h]
  · intro prm h
    unfold sphereBranch
    rw [h]
    rfl

/-- The amended C12 on an estimator that never returns and on one that returns the centre
`(7, 8, 9)`. -/
theorem empty_sphere_witness :
    sphereBranch failingSphereEst sampleCls [] = .error .estimatorFailed ∧
    sphereBranch sampleSphereEst sampleCls [] = .ok ⟨[⟨7, 8, 9⟩], [blue]⟩ :=
  ⟨(empty_sphere failingSphereEst sampleCls).1 rfl,
    (empty_sphere sampleSphereEst sampleCls).2 ⟨7, 8, 9, 1⟩ rfl⟩

/-- Claim C13 (usage errors).  With an argument count other than four, `main` exits with
`EXIT_FAILURE` before anything is read.  With four arguments and a readable table, a
third argument that is neither `cylinder` nor `sphere` makes `main` exit with
`EXIT_FAILURE`.  In both cases the outcome is the same for every estimator and
classifier, also for estimators that never return, and it is not a call of `WritePLY`.
`EXIT_FAILURE` is not zero.  Conversely `cylinder` runs the cylinder branch and `sphere`
the sphere branch, each on the filtered cloud with the output path `argv[2]`. -/
theorem usage_errors (A : Arith D Fl) (load : String → MatrixReaderWriter D)
    (cylEst : CylEstimator Fl) (cylCls : Classifier Fl)
    (sphEst : SphEstimator Fl) (sphCls : Classifier Fl) (argv : List String) :
    (argv.length ≠ 4 →
      main A load cylEst cylCls sphEst sphCls argv = .exited EXIT_FAILURE) ∧
    (∀ rows, argv.length = 4 → load (argv.getD 1 "") = tableOf rows →
      argv.getD 3 "" ≠ "cylinder" → argv.getD 3 "" ≠ "sphere" →
      main A load cylEst cylCls sphEst sphCls argv = .exited EXIT_FAILURE) ∧
    EXIT_FAILURE ≠ 0 ∧
    (∀ path out, Outcome.exited EXIT_FAILURE ≠ (Outcome.written path out : Outcome Fl)) ∧
    (∀ rows, argv.length = 4 → load (argv.getD 1 "") = tableOf rows →
      argv.getD 3 "" = "cylinder" →
      main A load cylEst cylCls sphEst sphCls argv =
        match cylinderBranch cylEst cylCls (filteredCloud A rows) with
        | .error e => .fault e
        | .ok out => .written (argv.getD 2 "") out) ∧
    (∀ rows, argv.length = 4 → load (argv.getD 1 "") = tableOf rows →
      argv.getD 3 "" = "sphere" →
      main A load cylEst cylCls sphEst sphCls argv =
        match sphereBranch sphEst sphCls (filteredCloud A rows) with
        | .error e => .fault e
        | .ok out => .written (argv.getD 2 "") out) := by
  refine ⟨main_bad_argc A load cylEst cylCls sphEst sphCls argv, ?_, by decide, ?_, ?_, ?_⟩
  · intro rows h hload hc hs
    exact main_bad_kind A load cylEst cylCls sphEst sphCls argv rows h hload hc hs
  · intro path out h
    cases h
  · intro rows h hload hc
    exact main_cylinder A load cylEst cylCls sphEst sphCls argv rows h hload hc
  · intro rows h hload hs
    exact main_sphere A load cylEst cylCls sphEst sphCls argv rows h hload hs

/-- The statement of C13 on three argument vectors: too few arguments, the unknown kind
`plane` (with estimators that never return), and the kind `sphere`. -/
theorem usage_errors_witness :
    main sampleArith sampleLoad sampleEst sampleCls sampleSphereEst sampleCls
        ["prog", "in.xyz", "out.ply"] = .exited EXIT_FAILURE ∧
    main sampleArith sampleLoad (fun _ _ => none) sampleCls failingSphereEst sampleCls
        ["prog", "in.xyz", "out.ply", "plane"] = .exited EXIT_FAILURE ∧
    main sampleArith sampleLoad sampleEst sampleCls sampleSphereEst sampleCls
        ["prog", "in.xyz", "out.ply", "sphere"] =
      (match sphereBranch sampleSphereEst sampleCls (filteredCloud sampleArith sampleRows) with
        | .error e => .fault e
        | .ok out => .written "out.ply" out) :=
  ⟨(usage_errors sampleArith sampleLoad sampleEst sampleCls sampleSphereEst sampleCls
      ["prog", "in.xyz", "out.ply"]).1 (by decide),
    (usage_errors sampleArith sampleLoad (fun _ _ => none) sampleCls failingSphereEst sampleCls
      ["prog", "in.xyz", "out.ply", "plane"]).2.1 sampleRows rfl rfl (by decide) (by decide),
    (usage_errors sampleArith sampleLoad sampleEst sampleCls sampleSphereEst sampleCls
      ["prog", "in.xyz", "out.ply", "sphere"]).2.2.2.2.2 sampleRows rfl rfl rfl⟩

/-- Claim C14 (points and colours paired).  Whenever `main` reaches `WritePLY` on a
three-column table, the point vector and the colour vector it hands over have the same
length: the number `N` of points of the filtered cloud in cylinder mode, `N + 1` in
sphere mode. -/
theorem points_and_colours_paired (A : Arith D Fl) (load : String → MatrixReaderWriter D)
    (cylEst : CylEstimator Fl) (cylCls : Classifier Fl)
    (sphEst : SphEstimator Fl) (sphCls : Classifier Fl) (argv : List String)
    (rows : List (D × D × D)) (path : String) (out : PlyArgs Fl)
    (hload : load (argv.getD 1 "") = tableOf rows)
    (hmain : main A load cylEst cylCls sphEst sphCls argv = .written path out) :
    out.points.length = out.colors.length ∧
    ((argv.getD 3 "" = "cylinder" ∧ out.points.length = (filteredCloud A rows).length ∧
        out.colors.length = (filteredCloud A rows).length) ∨
      (argv.getD 3 "" = "sphere" ∧ out.points.length = (filteredCloud A rows).length + 1 ∧
        out.colors.length = (filteredCloud A rows).length + 1)) := by
  obtain ⟨_, _, hbr⟩ := main_written A load cylEst cylCls sphEst sphCls argv rows path out
    hload hmain
  rcases hbr with ⟨hc, hb⟩ | ⟨hs, hb⟩
  · obtain ⟨h1, h2⟩ := cylinderBranch_shape _ _ _ _ hb
    have h3 : out.points.length = (filteredCloud A rows).length := by rw [h1]
    exact ⟨by rw [h3, h2], Or.inl ⟨hc, h3, h2⟩⟩
  · obtain ⟨_, h2, h3⟩ := sphereBranch_shape _ _ _ _ hb
    exact ⟨by rw [h2, h3], Or.inr ⟨hs, h2, h3⟩⟩

/-- The cylinder branch on the sample cloud: round 0 colours index `1`, round 1 colours
index `0`, and index `2` stays red. -/
theorem sample_cylinder_run :
    cylinderBranch sampleEst sampleCls samplePoints
      = .ok ⟨samplePoints, [⟨255, 192, 203⟩, ⟨160, 32, 240⟩, ⟨255, 0, 0⟩]⟩ :=
  (cylinderBranch_ok_iff _ _ _ _).2
    ⟨⟨4, [⟨5, 5, 5⟩], [2], [⟨255, 192, 203⟩, ⟨160, 32, 240⟩, ⟨255, 0, 0⟩]⟩,
      (whileLoop_ok_iff _ _ _ _).2 ⟨4, by rfl, by rfl⟩, rfl⟩

/-- The run of `main` on the sample table in cylinder mode. -/
theorem sample_main_cylinder :
    main sampleArith sampleLoad sampleEst sampleCls sampleSphereEst sampleCls
        ["prog", "in.xyz", "out.ply", "cylinder"]
      = .written "out.ply"
          ⟨samplePoints, [⟨255, 192, 203⟩, ⟨160, 32, 240⟩, ⟨255, 0, 0⟩]⟩ := by
  rw [main_cylinder sampleArith sampleLoad sampleEst sampleCls sampleSphereEst sampleCls
    ["prog", "in.xyz", "out.ply", "cylinder"] sampleRows rfl rfl rfl]
  have hf : filteredCloud sampleArith sampleRows = samplePoints := by rfl
  rw [hf, sample_cylinder_run]
  rfl

/-- The statement of C14 on the sample table in cylinder mode: three points, three
colours. -/
theorem points_and_colours_paired_witness :
    samplePoints.length
      = [(⟨255, 192, 203⟩ : Point3i), ⟨160, 32, 240⟩, ⟨255, 0, 0⟩].length ∧
    (((["prog", "in.xyz", "out.ply", "cylinder"] : List String).getD 3 "" = "cylinder" ∧
        samplePoints.length = (filteredCloud sampleArith sampleRows).length ∧
        [(⟨255, 192, 203⟩ : Point3i), ⟨160, 32, 240⟩, ⟨255, 0, 0⟩].length
          = (filteredCloud sampleArith sampleRows).length) ∨
      ((["prog", "in.xyz", "out.ply", "cylinder"] : List String).getD 3 "" = "sphere" ∧
        samplePoints.length = (filteredCloud sampleArith sampleRows).length + 1 ∧
        [(⟨255, 192, 203⟩ : Point3i), ⟨160, 32, 240⟩, ⟨255, 0, 0⟩].length
          = (filteredCloud sampleArith sampleRows).length + 1)) :=
  points_and_colours_paired sampleArith sampleLoad sampleEst sampleCls sampleSphereEst
    sampleCls ["prog", "in.xyz", "out.ply", "cylinder"] sampleRows "out.ply"
    ⟨samplePoints, [⟨255, 192, 203⟩, ⟨160, 32, 240⟩, ⟨255, 0, 0⟩]⟩ rfl sample_main_cylinder

/-- Claim C15 (pre-filter).  For every three-column table the reading loop returns the
filtered cloud: the rows for which the stored distance, promoted to `double`, is
greater than the threshold, in the order of the table, each stored as a point.  A row is
in the kept list exactly when it is in the table and passes that test, and a row whose
stored distance is at most the threshold is not kept. -/
theorem prefilter_keeps_far_rows (A : Arith D Fl) (rows : List (D × D × D)) :
    readPoints A (tableOf rows)
      = .ok ((rows.filter (fun r =>
            A.gt (A.toDouble (A.toFloat (A.sqrt
              (A.add (A.add (A.mul r.1 r.1) (A.mul r.2.1 r.2.1)) (A.mul r.2.2 r.2.2)))))
              A.FILTER_LOWEST_DISTANCE)).map
          (fun r => ⟨A.toFloat r.1, A.toFloat r.2.1, A.toFloat r.2.2⟩)) ∧
    (rows.filter (keeps A)).Sublist rows ∧
    (∀ r, r ∈ rows.filter (keeps A) ↔
      r ∈ rows ∧ A.gt (distFromOrigo A r.1 r.2.1 r.2.2) A.FILTER_LOWEST_DISTANCE = true) ∧
    (∀ r, A.le (distFromOrigo A r.1 r.2.1 r.2.2) A.FILTER_LOWEST_DISTANCE = true →
      r ∉ rows.filter (keeps A)) := by
  refine ⟨readPoints_eq A rows, List.filter_sublist rows, ?_, ?_⟩
  · intro r
    rw [List.mem_filter]
    rfl
  · intro r hle hmem
    have hgt : A.gt (distFromOrigo A r.1 r.2.1 r.2.2) A.FILTER_LOWEST_DISTANCE = true :=
      (List.mem_filter.1 hmem).2
    rw [A.le_not_gt _ _ hle] at hgt
    cases hgt

/-- The statement of C15 on the sample table: the origin row is dropped. -/
theorem prefilter_keeps_far_rows_witness :
    readPoints sampleArith (tableOf sampleRows)
      = .ok [⟨1, 0, 0⟩, ⟨0, 1, 0⟩, ⟨5, 5, 5⟩] ∧
    ((0, 0, 0) : Int × Int × Int) ∉ sampleRows.filter (keeps sampleArith) :=
  ⟨(prefilter_keeps_far_rows sampleArith sampleRows).1,
    (prefilter_keeps_far_rows sampleArith sampleRows).2.2.2 (0, 0, 0) (by rfl)⟩

/-- Claim C16 (empty input, cylinder mode).  On the empty cloud the loop test fails at
once, no round boundary follows the first, and the cylinder branch hands the empty point
vector and the empty colour vector to `WritePLY`, for every estimator and classifier
(also ones that never return, so neither is called).  Through `main`: in cylinder mode,
on a table all of whose rows the pre-filter drops, `WritePLY` receives two empty vectors. -/
theorem empty_cylinder (A : Arith D Fl) (load : String → MatrixReaderWriter D)
    (cylEst : CylEstimator Fl) (cylCls : Classifier Fl)
    (sphEst : SphEstimator Fl) (sphCls : Classifier Fl) (argv : List String) :
    loopCond (initState ([] : List (Point3f Fl))) = false ∧
    stateAt cylEst cylCls (initState []) 1 = none ∧
    whileLoop cylEst cylCls (initState []) = .ok (initState []) ∧
    cylinderBranch cylEst cylCls [] = .ok ⟨[], []⟩ ∧
    (∀ rows, argv.length = 4 → load (argv.getD 1 "") = tableOf rows →
      argv.getD 3 "" = "cylinder" → (∀ r ∈ rows, keeps A r = false) →
      main A load cylEst cylCls sphEst sphCls argv = .written (argv.getD 2 "") ⟨[], []⟩) := by
  have hc : loopCond (initState ([] : List (Point3f Fl))) = false := rfl
  have hw : whileLoop cylEst cylCls (initState []) = .ok (initState []) := by
    rw [whileLoop_unfold]
    simp [hc]
  have hb : cylinderBranch cylEst cylCls [] = .ok ⟨[], []⟩ := by
    unfold cylinderBranch
    rw [hw]
    rfl
  refine ⟨hc, rfl, hw, hb, ?_⟩
  intro rows hlen hload hobj hdrop
  have hf : filteredCloud A rows = [] := by
    unfold filteredCloud
    rw [List.filter_eq_nil_iff.2 (fun r hr => by simp [hdrop r hr])]
    rfl
  rw [main_cylinder A load cylEst cylCls sphEst sphCls argv rows hlen hload hobj, hf, hb]

/-- The statement of C16 through `main` on the origin-only table, with estimators that
never return. -/
theorem empty_cylinder_witness :
    main sampleArith originLoad (fun _ _ => none) sampleCls failingSphereEst sampleCls
        ["prog", "in.xyz", "out.ply", "cylinder"]
      = .written "out.ply" ⟨[], []⟩ :=
  (empty_cylinder sampleArith originLoad (fun _ _ => none) sampleCls failingSphereEst
    sampleCls ["prog", "in.xyz", "out.ply", "cylinder"]).2.2.2.2 originRows rfl rfl rfl
    (by decide)

/-- Claim C17 (bounds safety).  With one flag per point, at every round boundary whose
test succeeds and whose estimate returns: the palette index `cylinderCount` is below `4`
and the palette lookup is defined; for every `i` below the size of the working set the
flag lookup, the index lookup and the point lookup are defined and the index is a valid
slot of the colour vector, whose length is `N`; every iteration of the `for` loop
succeeds from any state with `N` colours and keeps `N` colours; and the round completes.
Hence the cylinder branch can only fail with the failure of the estimator. -/
theorem bounds_safety (est : CylEstimator F) (cls : Classifier F)
    (points : List (Point3f F))
    (hcls : ∀ pts prm, (cls pts prm).isInliers.length = pts.length) :
    (∀ k s prm, stateAt est cls (initState points) k = some s → loopCond s = true →
      est s.cylinderCount s.remainingPoints = some prm →
      (s.cylinderCount < 4 ∧ ∃ c, cylinder_Colors[s.cylinderCount]? = some c) ∧
      s.RANSAC_Colors.length = points.length ∧
      (∀ i : Nat, i < s.remainingPoints.length →
        ∃ b j p, (cls s.remainingPoints prm).isInliers[i]? = some b ∧
          s.originalIndices[i]? = some j ∧ s.remainingPoints[i]? = some p ∧
          j < s.RANSAC_Colors.length) ∧
      (∀ (st : ForState F) (i : Nat), i < s.remainingPoints.length →
        st.RANSAC_Colors.length = points.length →
        ∃ st', forBody s.remainingPoints s.originalIndices (cls s.remainingPoints prm)
            s.cylinderCount st i = .ok st' ∧
          st'.RANSAC_Colors.length = points.length) ∧
      ∃ s', loopBody est cls s = .ok s') ∧
    (∀ e, whileLoop est cls (initState points) = .error e → e = .estimatorFailed) ∧
    (∀ e, cylinderBranch est cls points = .error e → e = .estimatorFailed) := by
  have hround : ∀ k s prm, stateAt est cls (initState points) k = some s →
      loopCond s = true → est s.cylinderCount s.remainingPoints = some prm →
      (s.cylinderCount < 4 ∧ ∃ c, cylinder_Colors[s.cylinderCount]? = some c) ∧
      s.RANSAC_Colors.length = points.length ∧
      (∀ i : Nat, i < s.remainingPoints.length →
        ∃ b j p, (cls s.remainingPoints prm).isInliers[i]? = some b ∧
          s.originalIndices[i]? = some j ∧ s.remainingPoints[i]? = some p ∧
          j < s.RANSAC_Colors.length) ∧
      (∀ (st : ForState F) (i : Nat), i < s.remainingPoints.length →
        st.RANSAC_Colors.length = points.length →
        ∃ st', forBody s.remainingPoints s.originalIndices (cls s.remainingPoints prm)
            s.cylinderCount st i = .ok st' ∧
          st'.RANSAC_Colors.length = points.length) ∧
      ∃ s', loopBody est cls s = .ok s' := by
    intro k s prm hs hc hest
    have hinv := stateAt_inv est cls points hcls k s hs
    have hk := ((loopCond_iff s).1 hc).1
    obtain ⟨c, hcol, _, heq⟩ := loopBody_eq est cls points s prm hinv hk hest (hcls _ _)
    have hacc : ∀ i : Nat, i < s.remainingPoints.length →
        ∃ b j p, (cls s.remainingPoints prm).isInliers[i]? = some b ∧
          s.originalIndices[i]? = some j ∧ s.remainingPoints[i]? = some p ∧
          j < s.RANSAC_Colors.length := by
      intro i hi
      have hif : i < (cls s.remainingPoints prm).isInliers.length := by
        rw [hcls]
        exact hi
      have hii : i < s.originalIndices.length := by
        rw [hinv.length_eq]
        exact hi
      refine ⟨_, _, _, List.getElem?_eq_getElem hif, List.getElem?_eq_getElem hii,
        List.getElem?_eq_getElem hi, ?_⟩
      rw [hinv.colors_length]
      exact hinv.index_lt _ (List.getElem_mem hii)
    refine ⟨⟨hk, c, hcol⟩, hinv.colors_length, hacc, ?_, _, heq⟩
    intro st i hi hst
    obtain ⟨b, j, p, hb, hj, hp, hjl⟩ := hacc i hi
    have hjl' : j < st.RANSAC_Colors.length := by
      rw [hst, ← hinv.colors_length]
      exact hjl
    cases b with
    | true =>
      refine ⟨{ st with RANSAC_Colors := st.RANSAC_Colors.set j c }, ?_, ?_⟩
      · simp [forBody, hb, hj, hcol, hjl']
      · simp [hst]
    | false =>
      refine ⟨{ st with nextRemainingPoints := st.nextRemainingPoints ++ [p],
                        nextOriginalIndices := st.nextOriginalIndices ++ [j] }, ?_, hst⟩
      simp [forBody, hb, hj, hp]
  have hloop : ∀ e, whileLoop est cls (initState points) = .error e →
      e = .estimatorFailed := by
    intro e he
    obtain ⟨k, s, hs, hc, hb⟩ := whileLoop_error_stateAt est cls _ _ e (Nat.le_refl _) he
    cases hest : est s.cylinderCount s.remainingPoints with
    | none =>
      rw [loopBody_est_none est cls s hest] at hb
      cases hb
      rfl
    | some prm =>
      obtain ⟨s', hs'⟩ := (hround k s prm hs hc hest).2.2.2.2
      rw [hs'] at hb
      cases hb
  refine ⟨hround, hloop, ?_⟩
  intro e he
  apply hloop
  unfold cylinderBranch at he
  cases hw : whileLoop est cls (initState points) with
  | error e' =>
    rw [hw] at he
    cases he
    rfl
  | ok sf =>
    rw [hw] at he
    cases he

/-- The statement of C17 on the sample run. -/
theorem bounds_safety_witness :
    (∀ pts prm, (sampleCls pts prm).isInliers.length = pts.length) ∧
    (∀ e, cylinderBranch sampleEst sampleCls samplePoints = .error e →
      e = .estimatorFailed) :=
  ⟨fun pts prm => by simp [sampleCls],
    (bounds_safety sampleEst sampleCls samplePoints
      (fun pts prm => by simp [sampleCls])).2.2⟩

/-- Claim C18 (ingestion order).  With one flag per point, at every round boundary
`originalIndices` is strictly increasing and a subsequence of `[0 .. N)`,
`remainingPoints` lists the points of the full cloud at these indices and is a
subsequence of the full cloud, and the working set and index list of the next boundary
are subsequences of the current ones. -/
theorem working_set_keeps_order (est : CylEstimator F) (cls : Classifier F)
    (points : List (Point3f F))
    (hcls : ∀ pts prm, (cls pts prm).isInliers.length = pts.length)
    (k : Nat) (s : CylState F) (hs : stateAt est cls (initState points) k = some s) :
    s.originalIndices.Pairwise (fun a b => a < b) ∧
    s.originalIndices.Sublist (List.range points.length) ∧
    s.originalIndices.map (fun j => points[j]?) = s.remainingPoints.map some ∧
    s.remainingPoints.Sublist points ∧
    (∀ s', stateAt est cls (initState points) (k + 1) = some s' →
      s'.remainingPoints.Sublist s.remainingPoints ∧
      s'.originalIndices.Sublist s.originalIndices) := by
  have hinv := stateAt_inv est cls points hcls k s hs
  obtain ⟨h1, h2⟩ := stateAt_sublist est cls points hcls k s hs
  refine ⟨hinv.increasing, h2, hinv.fidelity, h1, ?_⟩
  intro s' hs'
  obtain ⟨t, ht, hc, hb⟩ := (stateAt_succ est cls _ s' k).1 hs'
  rw [hs] at ht
  cases ht
  obtain ⟨prm, hest⟩ := loopBody_ok_est est cls s s' hb
  have hk := ((loopCond_iff s).1 hc).1
  obtain ⟨c, _, _, heq⟩ := loopBody_eq est cls points s prm hinv hk hest (hcls _ _)
  rw [hb] at heq
  cases heq
  have hfl := hcls s.remainingPoints prm
  refine ⟨outliersOf_sublist _ _ (Nat.le_of_eq hfl.symm), outliersOf_sublist _ _ ?_⟩
  rw [hfl, hinv.length_eq]

/-- The statement of C18 on the sample run, at the boundary after the first round. -/
theorem working_set_keeps_order_witness :
    [0, 2].Pairwise (fun a b => a < b) ∧
    [0, 2].Sublist (List.range samplePoints.length) ∧
    [0, 2].map (fun j => samplePoints[j]?)
      = [(⟨1, 0, 0⟩ : Point3f Int), ⟨5, 5, 5⟩].map some ∧
    [(⟨1, 0, 0⟩ : Point3f Int), ⟨5, 5, 5⟩].Sublist samplePoints ∧
    (∀ s', stateAt sampleEst sampleCls (initState samplePoints) (1 + 1) = some s' →
      s'.remainingPoints.Sublist [(⟨1, 0, 0⟩ : Point3f Int), ⟨5, 5, 5⟩] ∧
      s'.originalIndices.Sublist [0, 2]) :=
  working_set_keeps_order sampleEst sampleCls samplePoints
    (fun pts prm => by simp [sampleCls]) 1
    ⟨1, [⟨1, 0, 0⟩, ⟨5, 5, 5⟩], [0, 2], [⟨255, 0, 0⟩, ⟨160, 32, 240⟩, ⟨255, 0, 0⟩]⟩ (by rfl)

end ObjectDetection
